import Mathlib

/-
  Shallow embedding of the library application's reservation-and-loan
  subsystem (src/app/services.py, src/app/services_reservations.py,
  src/app/gui_main.py, src/app/models.py).

  Modelling conventions:
  * a SQL table is a `List` of records; a row's primary key is its `id`
    field; `Model.get_or_none` / `.first()` is `List.find?`; an
    `UPDATE ... WHERE` is a `List.map` that rewrites the rows matching
    the predicate; `Model.create` appends a row and bumps the table's
    auto-increment counter;
  * a Python `date` is a day index (`Nat`); a `datetime` is a second
    count (`Nat`) with day `d` covering seconds `86400*d .. 86400*d+86399`,
    so `datetime.combine(d, time(23,59,59))` is `86400*d + 86399` and
    `timedelta(days=k)` is `+ k` on dates;
  * each service function takes the ambient clock (`today` for
    `date.today()`, `now` for `datetime.now()`) as explicit arguments and
    returns the Python result tuple paired with the updated store;
  * operations run sequentially (one transaction at a time), so the
    `for_update` locked re-reads of the source re-read the same row.
-/

namespace LibraryApp

/-- A row of `copies` (models.py `Copy`): `location` resolves through
`locations` to a branch. Only the fields the subsystem reads are kept. -/
structure CopyRec where
  id : Nat
  inventory_code : String
  status : String
  book_id : Nat
  location_id : Option Nat
deriving Repr, DecidableEq

/-- A row of `locations` (models.py `Location`). -/
structure LocationRec where
  id : Nat
  branch_id : Nat
deriving Repr, DecidableEq

/-- A row of `users` (models.py `User`), reduced to what the loan and
reservation services read. -/
structure UserRec where
  id : Nat
  login : String
deriving Repr, DecidableEq

/-- A row of `loans` (models.py `Loan`). -/
structure LoanRec where
  id : Nat
  status : String
  start_date : Nat
  due_date : Nat
  return_date : Option Nat
  copy_id : Nat
  reader_id : Nat
  librarian_id : Nat
deriving Repr, DecidableEq

/-- A row of `reservations` (models.py `Reservation`). -/
structure ReservationRec where
  id : Nat
  status : String
  pickup_date : Nat
  expires_at : Nat
  extended_once : Bool
  reader_id : Nat
  copy_id : Nat
  branch_id : Nat
deriving Repr, DecidableEq

/-- The relational store: the tables touched by the subsystem plus the
auto-increment counters for the two tables the subsystem inserts into. -/
structure DB where
  copies : List CopyRec
  locations : List LocationRec
  users : List UserRec
  loans : List LoanRec
  reservations : List ReservationRec
  next_loan_id : Nat
  next_reservation_id : Nat
deriving Repr, DecidableEq

/-- services_reservations.py line 10. -/
def ACTIVE_LOAN_STATUSES : List String := ["open", "overdue"]

/-- services_reservations.py `_end_of_day`: 23:59:59 of day `d`. -/
def _end_of_day (d : Nat) : Nat := 86400 * d + 86399

/-- The branch a copy sits at, through the `Copy -> Location -> Branch`
join used by the reservation queries. -/
def copy_branch (s : DB) (c : CopyRec) : Option Nat :=
  c.location_id.bind fun lid =>
    (s.locations.find? fun loc => loc.id == lid).map (·.branch_id)

/-- The `WHERE` clause of the expiry sweep: status=active and
expires_at < now. -/
def res_expirable (now : Nat) (r : ReservationRec) : Bool :=
  r.status == "active" && decide (r.expires_at < now)

/-- services_reservations.py `expire_old_reservations`: inside one
transaction, collects the active reservations whose expiry timestamp is
before `now`, marks them expired, resets their copies to available where
the copy is still reserved, and returns how many reservations expired. -/
def expire_old_reservations (now : Nat) (s : DB) : Nat × DB :=
  let q := s.reservations.filter (res_expirable now)
  let ids := q.map (·.id)
  let copy_ids := q.map (·.copy_id)
  if ids.isEmpty then (0, s)
  else
    let reservations := s.reservations.map fun r =>
      if ids.contains r.id then { r with status := "expired" } else r
    let copies := s.copies.map fun c =>
      if copy_ids.contains c.id && c.status == "reserved" then
        { c with status := "available" }
      else c
    (ids.length, { s with reservations := reservations, copies := copies })

/-- The copy-selection query of `create_reservation`: available copies of
the book located at the branch. -/
def available_candidates (s : DB) (book_id branch_id : Nat) : List CopyRec :=
  s.copies.filter fun c =>
    c.book_id == book_id && c.status == "available"
      && (copy_branch s c == some branch_id)

/-- `ORDER BY Copy.id ASC ... .first()`: the candidate with the least id. -/
def min_by_id : List CopyRec → Option CopyRec
  | [] => none
  | c :: cs =>
    match min_by_id cs with
    | none => some c
    | some c2 => if c.id ≤ c2.id then some c else some c2

/-- The `with db.atomic():` block of `create_reservation`: selects the
least-id available copy of the book at the branch under lock, marks it
reserved and inserts an active reservation expiring at the end of the
pickup day. -/
def create_reservation_tx (reader_id book_id branch_id pickup_date : Nat)
    (s1 : DB) : (Bool × String × Option Nat) × DB :=
  match min_by_id (available_candidates s1 book_id branch_id) with
  | none => ((false, "В этом филиале уже нет свободных экземпляров.", none), s1)
  | some copy_obj =>
    let copies := s1.copies.map fun c =>
      if c.id == copy_obj.id then { c with status := "reserved" } else c
    let rid := s1.next_reservation_id
    let res : ReservationRec :=
      { id := rid, status := "active", pickup_date := pickup_date,
        expires_at := _end_of_day pickup_date, extended_once := false,
        reader_id := reader_id, copy_id := copy_obj.id, branch_id := branch_id }
    ((true, "Резерв создан до конца дня " ++ toString pickup_date ++ ".", some rid),
     { s1 with copies := copies,
               reservations := s1.reservations ++ [res],
               next_reservation_id := rid + 1 })

/-- services_reservations.py `create_reservation`: validates the pickup
date into [today, today+3], runs the expiry sweep, then runs the
transaction block. -/
def create_reservation (reader_id book_id branch_id : Nat)
    (pickup_date today now : Nat) (s : DB) :
    (Bool × String × Option Nat) × DB :=
  if pickup_date < today || pickup_date > today + 3 then
    ((false, "Дату можно выбрать от сегодня до сегодня+3 дня.", none), s)
  else
    create_reservation_tx reader_id book_id branch_id pickup_date
      (expire_old_reservations now s).2

/-- The `with db.atomic():` block of `cancel_reservation`: requires the
reservation to exist, belong to the caller and be active; marks it
cancelled and resets its copy to available if the copy is still reserved. -/
def cancel_reservation_tx (reader_id rid : Nat) (s1 : DB) :
    (Bool × String) × DB :=
  match s1.reservations.find? (fun r => r.id == rid) with
  | none => ((false, "Резерв не найден."), s1)
  | some res =>
    if res.reader_id != reader_id then ((false, "Это не ваш резерв."), s1)
    else if res.status != "active" then ((false, "Резерв уже не активен."), s1)
    else
      let reservations := s1.reservations.map fun r =>
        if r.id == rid then { r with status := "cancelled" } else r
      let copies := s1.copies.map fun c =>
        if c.id == res.copy_id && c.status == "reserved" then
          { c with status := "available" }
        else c
      ((true, "Резерв отменён."), { s1 with reservations := reservations, copies := copies })

/-- services_reservations.py `cancel_reservation`: sweep, then run the
transaction block. -/
def cancel_reservation (reader_id rid now : Nat) (s : DB) :
    (Bool × String) × DB :=
  cancel_reservation_tx reader_id rid (expire_old_reservations now s).2

/-- The `with db.atomic():` block of `extend_reservation`: requires the
reservation to exist, belong to the caller, be active and not yet
extended; adds one day to the pickup date, recomputes the expiry as the
end of the new pickup day and sets the extended-once flag. Copies
untouched. -/
def extend_reservation_tx (reader_id rid : Nat) (s1 : DB) :
    (Bool × String) × DB :=
  match s1.reservations.find? (fun r => r.id == rid) with
  | none => ((false, "Резерв не найден."), s1)
  | some res =>
    if res.reader_id != reader_id then ((false, "Это не ваш резерв."), s1)
    else if res.status != "active" then ((false, "Резерв уже не активен."), s1)
    else if res.extended_once then ((false, "Продлить можно только один раз."), s1)
    else
      let new_pick := res.pickup_date + 1
      let reservations := s1.reservations.map fun r =>
        if r.id == rid then
          { r with pickup_date := new_pick, expires_at := _end_of_day new_pick,
                   extended_once := true }
        else r
      ((true, "Продлено до " ++ toString new_pick ++ "."),
       { s1 with reservations := reservations })

/-- services_reservations.py `extend_reservation`: sweep, then run the
transaction block. -/
def extend_reservation (reader_id rid now : Nat) (s : DB) :
    (Bool × String) × DB :=
  extend_reservation_tx reader_id rid (expire_old_reservations now s).2

/-- The `with db.atomic():` block of `fulfill_reservation`: loads the
reservation joined with its copy under lock; requires it active, the copy
reserved, and no open/overdue loan on the copy; creates an open loan due
in `loan_days` days, marks the reservation fulfilled and the copy loaned. -/
def fulfill_reservation_tx (librarian_id rid loan_days today : Nat) (s1 : DB) :
    (Bool × String) × DB :=
  match s1.reservations.find? (fun r => r.id == rid) with
  | none => ((false, "Резерв не найден."), s1)
  | some res =>
    match s1.copies.find? (fun c => c.id == res.copy_id) with
    | none => ((false, "Резерв не найден."), s1)
    | some copy_obj =>
      if res.status != "active" then ((false, "Резерв не активен."), s1)
      else if copy_obj.status != "reserved" then
        ((false, "Экземпляр не зарезервирован."), s1)
      else if s1.loans.any (fun l =>
          l.copy_id == copy_obj.id && ACTIVE_LOAN_STATUSES.contains l.status) then
        ((false, "На этот экземпляр уже есть активная выдача."), s1)
      else
        let start := today
        let due := start + loan_days
        let loan : LoanRec :=
          { id := s1.next_loan_id, status := "open", start_date := start,
            due_date := due, return_date := none, copy_id := copy_obj.id,
            reader_id := res.reader_id, librarian_id := librarian_id }
        let reservations := s1.reservations.map fun r =>
          if r.id == rid then { r with status := "fulfilled" } else r
        let copies := s1.copies.map fun c =>
          if c.id == copy_obj.id then { c with status := "loaned" } else c
        ((true, "Выдано до " ++ toString due ++ "."),
         { s1 with loans := s1.loans ++ [loan], reservations := reservations,
                   copies := copies, next_loan_id := s1.next_loan_id + 1 })

/-- services_reservations.py `fulfill_reservation`: sweep, then run the
transaction block (`loan_days` defaults to 14 at the call site). -/
def fulfill_reservation (librarian_id rid loan_days today now : Nat) (s : DB) :
    (Bool × String) × DB :=
  fulfill_reservation_tx librarian_id rid loan_days today
    (expire_old_reservations now s).2

/-- services.py line 522. -/
def DEFAULT_LOAN_DAYS : Nat := 14

/-- Python `str.strip()`: drops leading and trailing whitespace. Defined
by structural recursion on the character list so that it evaluates. -/
def py_strip (s : String) : String :=
  String.mk (((s.data.dropWhile Char.isWhitespace).reverse.dropWhile
    Char.isWhitespace).reverse)

/-- services.py `issue_loan`: validates the inputs, resolves the copy by
inventory code and the reader by login, requires the copy available, then
re-reads the copy under lock and re-checks availability before creating
an open loan due in 14 days and marking the copy loaned. The locked
re-read's impossible-miss branch models peewee's raised `DoesNotExist`. -/
def issue_loan (copy_inventory_code reader_login : String)
    (librarian_id today : Nat) (s : DB) : (Bool × String) × DB :=
  let code := py_strip copy_inventory_code
  let login := py_strip reader_login
  if code.isEmpty || login.isEmpty then
    ((false, "Нужно указать инвентарный код и читателя."), s)
  else
    match s.copies.find? (fun c => c.inventory_code == code) with
    | none => ((false, "Экземпляр " ++ code ++ " не найден."), s)
    | some copy =>
      if copy.status != "available" then
        ((false, "Экземпляр сейчас не доступен (status=" ++ copy.status ++ ")."), s)
      else
        match s.users.find? (fun u => u.login == login) with
        | none => ((false, "Читатель " ++ login ++ " не найден."), s)
        | some reader =>
          let start := today
          let due := start + DEFAULT_LOAN_DAYS
          match s.copies.find? (fun c => c.id == copy.id) with
          | none => ((false, "Ошибка БД: экземпляр не найден."), s)
          | some copy2 =>
            if copy2.status != "available" then
              ((false, "Кто-то уже успел забрать (status=" ++ copy2.status ++ ")."), s)
            else
              let loan : LoanRec :=
                { id := s.next_loan_id, status := "open", start_date := start,
                  due_date := due, return_date := none, copy_id := copy2.id,
                  reader_id := reader.id, librarian_id := librarian_id }
              let copies := s.copies.map fun c =>
                if c.id == copy2.id then { c with status := "loaned" } else c
              ((true, "Выдача оформлена. Loan ID=" ++ toString loan.id
                  ++ ", до " ++ toString due ++ "."),
               { s with loans := s.loans ++ [loan], copies := copies,
                        next_loan_id := s.next_loan_id + 1 })

/-- services.py `return_loan`: requires the loan to exist with status
open/overdue, re-checks under lock, then marks it returned with today's
return date and the returning librarian, and sets the copy's status to
available unconditionally. -/
def return_loan (loan_id librarian_id today : Nat) (s : DB) :
    (Bool × String) × DB :=
  match s.loans.find? (fun l => l.id == loan_id) with
  | none => ((false, "Выдача не найдена."), s)
  | some loan0 =>
    if !(loan0.status == "open" || loan0.status == "overdue") then
      ((false, "Нельзя вернуть выдачу со статусом " ++ loan0.status ++ "."), s)
    else
      match s.loans.find? (fun l => l.id == loan_id) with
      | none => ((false, "Выдача не найдена."), s)
      | some loan =>
        if !(loan.status == "open" || loan.status == "overdue") then
          ((false, "Уже изменили статус на " ++ loan.status ++ "."), s)
        else
          let loans := s.loans.map fun l =>
            if l.id == loan_id then
              { l with status := "returned", return_date := some today,
                       librarian_id := librarian_id }
            else l
          let copies := s.copies.map fun c =>
            if c.id == loan.copy_id then { c with status := "available" } else c
          ((true, "Возврат оформлен."), { s with loans := loans, copies := copies })

/-- The `WHERE` clause of the overdue bulk update: status=open and
due_date < today. -/
def loan_overdue_eligible (today : Nat) (l : LoanRec) : Bool :=
  l.status == "open" && decide (l.due_date < today)

/-- services.py `update_overdue_statuses`: bulk-updates open loans past
their due date to overdue and returns the affected row count. -/
def update_overdue_statuses (today : Nat) (s : DB) : Nat × DB :=
  let n := s.loans.countP (loan_overdue_eligible today)
  let loans := s.loans.map fun l =>
    if loan_overdue_eligible today l then { l with status := "overdue" } else l
  (n, { s with loans := loans })

/-- A JSON value stored in a role's rights map, as `get_user_rights` and
`Session.can` discriminate them: a Python `bool`, or any other value of
which only the Python truthiness is ever read. -/
inductive RVal where
  | b (x : Bool)
  | other (truthy : Bool)
deriving Repr, DecidableEq

/-- A Python dict of rights: association list, first binding wins on read. -/
abbrev Rights := List (String × RVal)

/-- `d.get(k)` on a rights dict. -/
def dget (d : Rights) (k : String) : Option RVal :=
  (d.find? fun p => p.1 == k).map (·.2)

/-- `d[k] = v` on a rights dict: a fresh binding shadows any older one.
Under `dget` (first binding wins) this is observationally the Python dict
update; the merged map is only ever read back through `dget`. -/
def dset (d : Rights) (k : String) (v : RVal) : Rights := (k, v) :: d

/-- `d.setdefault(k, v)` on a rights dict: binds `k` only if absent. -/
def dsetdefault (d : Rights) (k : String) (v : RVal) : Rights :=
  if (d.find? fun p => p.1 == k).isSome then d else (k, v) :: d

/-- Python truthiness of an optional rights value: `bool(d.get(k))`. -/
def pybool : Option RVal → Bool
  | none => false
  | some (RVal.b x) => x
  | some (RVal.other t) => t

/-- The loop body of `get_user_rights` (services.py lines 254-263) for one
`k, val` item of a role's rights dict: `all` is skipped, an explicit
`True` overwrites, an explicit `False` only fills an absent key, any
non-bool value overwrites. -/
def merge_one (merged : Rights) (kv : String × RVal) : Rights :=
  if kv.1 == "all" then merged
  else
    match kv.2 with
    | RVal.b true => dset merged kv.1 (RVal.b true)
    | RVal.b false => dsetdefault merged kv.1 (RVal.b false)
    | RVal.other t => dset merged kv.1 (RVal.other t)

/-- The role loop of `get_user_rights`: a role with `all is True` returns
`{"all": True}` at once, otherwise the role's items are folded into the
accumulator. -/
def merge_rights : List Rights → Rights → Rights
  | [], merged => merged
  | d :: rest, merged =>
    if dget d "all" = some (RVal.b true) then [("all", RVal.b true)]
    else merge_rights rest (d.foldl merge_one merged)

/-- services.py `get_user_rights`, applied to the (already normalised)
rights dicts of the user's roles in query order. -/
def get_user_rights (role_rights : List Rights) : Rights :=
  merge_rights role_rights []

/-- services.py `Session` (the fields `can` reads). -/
structure Session where
  user_id : Nat
  roles : List String
  rights : Rights
deriving Repr, DecidableEq

/-- services.py `Session.can`: full access when the merged map has
`all is True`, else the truthiness of the entry under `perm`. -/
def Session.can (sess : Session) (perm : String) : Bool :=
  if dget sess.rights "all" = some (RVal.b true) then true
  else pybool (dget sess.rights perm)

/-
  The GUI entry points (gui_main.py) are the only callers of the mutating
  engine operations; each checks the required permission key first and
  returns without touching the store when it is missing. Only the
  permission guard and the engine call are modelled; widget updates and
  message boxes do not touch the store.
-/

/-- gui_main.py `_ui_issue_loan` (lines 656-663). -/
def _ui_issue_loan (sess : Session) (inv reader_login : String)
    (today : Nat) (s : DB) : DB :=
  if !sess.can "manage_loans" then s
  else (issue_loan inv reader_login sess.user_id today s).2

/-- gui_main.py `_ui_return_loan` (lines 673-681). -/
def _ui_return_loan (sess : Session) (loan_id today : Nat) (s : DB) : DB :=
  if !sess.can "manage_loans" then s
  else (return_loan loan_id sess.user_id today s).2

/-- gui_main.py `_ui_update_overdue` (lines 689-692). -/
def _ui_update_overdue (sess : Session) (today : Nat) (s : DB) : DB :=
  if !sess.can "manage_loans" then s
  else (update_overdue_statuses today s).2

/-- gui_main.py `_ui_reserve_book` (line 418) guarding gui_reserve.py's
`create_reservation` call. -/
def _ui_reserve_book (sess : Session) (book_id branch_id pickup_date today now : Nat)
    (s : DB) : DB :=
  if !sess.can "create_reservation" then s
  else (create_reservation sess.user_id book_id branch_id pickup_date today now s).2

/-- gui_main.py `_ui_cancel_reservation` (lines 831-838). -/
def _ui_cancel_reservation (sess : Session) (rid now : Nat) (s : DB) : DB :=
  if !sess.can "manage_own_reservations" then s
  else (cancel_reservation sess.user_id rid now s).2

/-- gui_main.py `_ui_extend_reservation` (lines 843-850). -/
def _ui_extend_reservation (sess : Session) (rid now : Nat) (s : DB) : DB :=
  if !sess.can "manage_own_reservations" then s
  else (extend_reservation sess.user_id rid now s).2

/-- gui_main.py `_ui_fulfill_reservation` (lines 854-861). -/
def _ui_fulfill_reservation (sess : Session) (rid today now : Nat) (s : DB) : DB :=
  if !sess.can "manage_reservations" then s
  else (fulfill_reservation sess.user_id rid 14 today now s).2

/-- One engine operation together with its arguments and the clock
reading at which it runs. -/
inductive Op where
  | opExpire (now : Nat)
  | opCreate (reader_id book_id branch_id pickup_date today now : Nat)
  | opCancel (reader_id rid now : Nat)
  | opExtend (reader_id rid now : Nat)
  | opFulfill (librarian_id rid loan_days today now : Nat)
  | opIssue (code login : String) (librarian_id today : Nat)
  | opReturn (loan_id librarian_id today : Nat)
  | opOverdue (today : Nat)
deriving Repr, DecidableEq

/-- The state transition of one engine operation. -/
def apply_op : Op → DB → DB
  | Op.opExpire now, s => (expire_old_reservations now s).2
  | Op.opCreate reader_id book_id branch_id pickup_date today now, s =>
    (create_reservation reader_id book_id branch_id pickup_date today now s).2
  | Op.opCancel reader_id rid now, s => (cancel_reservation reader_id rid now s).2
  | Op.opExtend reader_id rid now, s => (extend_reservation reader_id rid now s).2
  | Op.opFulfill librarian_id rid loan_days today now, s =>
    (fulfill_reservation librarian_id rid loan_days today now s).2
  | Op.opIssue code login librarian_id today, s =>
    (issue_loan code login librarian_id today s).2
  | Op.opReturn loan_id librarian_id today, s =>
    (return_loan loan_id librarian_id today s).2
  | Op.opOverdue today, s => (update_overdue_statuses today s).2

/-- Running a sequence of engine operations from a state. -/
def run_ops : List Op → DB → DB
  | [], s => s
  | op :: rest, s => run_ops rest (apply_op op s)

/-! ### List helpers -/

theorem find?_map_pres {α : Type} {f : α → α} {p : α → Bool}
    (hf : ∀ a, p (f a) = p a) (l : List α) :
    (l.map f).find? p = (l.find? p).map f := by
  induction l with
  | nil => rfl
  | cons a l ih =>
    by_cases h : p a = true
    · rw [List.map_cons, List.find?_cons_of_pos _ (by rw [hf]; exact h),
        List.find?_cons_of_pos _ h, Option.map_some']
    · rw [List.map_cons, List.find?_cons_of_neg _ (by rw [hf]; exact h),
        List.find?_cons_of_neg _ h, ih]

theorem two_le_countP {α : Type} {p : α → Bool} {l : List α} {a b : α}
    (ha : a ∈ l) (hb : b ∈ l) (hab : a ≠ b)
    (hpa : p a = true) (hpb : p b = true) : 2 ≤ l.countP p := by
  induction l with
  | nil => cases ha
  | cons x l ih =>
    rcases List.mem_cons.mp ha with rfl | ha2
    · have hbl : b ∈ l := by
        rcases List.mem_cons.mp hb with rfl | h
        · exact absurd rfl (Ne.symm hab)
        · exact h
      have h1 : 0 < l.countP p := List.countP_pos_iff.mpr ⟨b, hbl, hpb⟩
      rw [List.countP_cons_of_pos _ _ hpa]
      omega
    · rcases List.mem_cons.mp hb with rfl | hb2
      · have h1 : 0 < l.countP p := List.countP_pos_iff.mpr ⟨a, ha2, hpa⟩
        rw [List.countP_cons_of_pos _ _ hpb]
        omega
      · by_cases hx : p x = true
        · have h1 : 2 ≤ l.countP p + 1 := by
            have : 0 < l.countP p := List.countP_pos_iff.mpr ⟨a, ha2, hpa⟩
            omega
          rw [List.countP_cons_of_pos _ _ hx]
          omega
        · rw [List.countP_cons_of_neg _ _ hx]
          exact ih ha2 hb2

/-- In a table whose ids are distinct, looking up the id of a member row
returns that row. -/
theorem find?_key_of_nodup {α : Type} (key : α → Nat) {l : List α} {c : α}
    (hnd : (l.map key).Nodup) (hc : c ∈ l) :
    l.find? (fun x => key x == key c) = some c := by
  induction l with
  | nil => cases hc
  | cons x l ih =>
    simp only [List.map_cons, List.nodup_cons] at hnd
    rcases List.mem_cons.mp hc with rfl | hcl
    · exact List.find?_cons_of_pos _ (by simp)
    · have hxc : key x ≠ key c := by
        intro h
        exact hnd.1 (h ▸ List.mem_map_of_mem key hcl)
      rw [List.find?_cons_of_neg _ (by simpa using hxc), ih hnd.2 hcl]

theorem countP_map_le_of_imp {α : Type} {f : α → α} {p : α → Bool}
    (h : ∀ a, p (f a) = true → p a = true) (l : List α) :
    (l.map f).countP p ≤ l.countP p := by
  rw [List.countP_map]
  exact List.countP_mono_left fun a _ hpa => h a hpa

theorem countP_map_eq_of_pres {α : Type} {f : α → α} {p : α → Bool}
    (h : ∀ a, p (f a) = p a) (l : List α) :
    (l.map f).countP p = l.countP p := by
  rw [List.countP_map]
  exact List.countP_congr fun a _ => by
    constructor
    · intro hx
      rwa [← h a]
    · intro hx
      show p (f a) = true
      rwa [h a]

/-! ### The at-most-one-holder invariant -/

/-- A loan row counting as an active hold: status open or overdue. -/
def active_loan (l : LoanRec) : Bool := ACTIVE_LOAN_STATUSES.contains l.status

/-- The status of the copy with id `cid`, if such a copy exists. -/
def copy_status (s : DB) (cid : Nat) : Option String :=
  (s.copies.find? fun c => c.id == cid).map (·.status)

/-- Number of open/overdue loan rows referencing copy `cid`. -/
def loans_on (s : DB) (cid : Nat) : Nat :=
  s.loans.countP fun l => active_loan l && l.copy_id == cid

/-- Number of active reservation rows referencing copy `cid`. -/
def res_on (s : DB) (cid : Nat) : Nat :=
  s.reservations.countP fun r => r.status == "active" && r.copy_id == cid

/-- Size of the set of open/overdue loans on a copy together with the
active reservations on it. -/
def holders (s : DB) (cid : Nat) : Nat := loans_on s cid + res_on s cid

/-- Store consistency: copy ids are distinct (primary key), a copy with an
open/overdue loan is `loaned`, a copy with an active reservation is
`reserved`, and each copy carries at most one open/overdue loan and at
most one active reservation. -/
structure Inv (s : DB) : Prop where
  nodup_copy : (s.copies.map (·.id)).Nodup
  loan_link : ∀ l ∈ s.loans, active_loan l = true → copy_status s l.copy_id = some "loaned"
  res_link : ∀ r ∈ s.reservations, r.status = "active" → copy_status s r.copy_id = some "reserved"
  loan_uniq : ∀ cid, loans_on s cid ≤ 1
  res_uniq : ∀ cid, res_on s cid ≤ 1

theorem holders_le_one_of_inv {s : DB} (h : Inv s) (cid : Nat) :
    holders s cid ≤ 1 := by
  unfold holders
  by_cases hl : loans_on s cid = 0
  · rw [hl]
    simpa using h.res_uniq cid
  · obtain ⟨l, hml, hpl⟩ := List.countP_pos_iff.mp (Nat.pos_of_ne_zero hl)
    rw [Bool.and_eq_true] at hpl
    have hcl : l.copy_id = cid := beq_iff_eq.mp hpl.2
    have h1 := h.loan_link l hml hpl.1
    by_cases hr : res_on s cid = 0
    · rw [hr]
      have := h.loan_uniq cid
      omega
    · obtain ⟨r, hmr, hpr⟩ := List.countP_pos_iff.mp (Nat.pos_of_ne_zero hr)
      rw [Bool.and_eq_true] at hpr
      have hcr : r.copy_id = cid := beq_iff_eq.mp hpr.2
      have h2 := h.res_link r hmr (beq_iff_eq.mp hpr.1)
      rw [hcl] at h1
      rw [hcr] at h2
      rw [h1] at h2
      exact absurd h2 (by decide)

theorem copy_status_of_mem {s : DB} (hnd : (s.copies.map (·.id)).Nodup)
    {c : CopyRec} (hc : c ∈ s.copies) : copy_status s c.id = some c.status := by
  unfold copy_status
  rw [find?_key_of_nodup (fun c : CopyRec => c.id) hnd hc]
  rfl

/-- `copy_status` after an UPDATE that rewrites only the statuses of the
rows matching `cond`. -/
theorem copy_status_update {s s' : DB} {cond : CopyRec → Bool} {st : String}
    (hc : s'.copies = s.copies.map fun c => if cond c then { c with status := st } else c)
    (cid : Nat) :
    copy_status s' cid = (s.copies.find? fun c => c.id == cid).map
      (fun c => if cond c then st else c.status) := by
  unfold copy_status
  rw [hc, find?_map_pres (fun c => by by_cases h : cond c = true <;> simp [h])]
  cases s.copies.find? fun c => c.id == cid with
  | none => rfl
  | some c => by_cases h : cond c = true <;> simp [h]

/-- Unfolded form of the expiry sweep. -/
theorem expire_old_reservations_eq (now : Nat) (s : DB) :
    expire_old_reservations now s =
      if (s.reservations.filter (res_expirable now)).isEmpty then (0, s)
      else ((s.reservations.filter (res_expirable now)).length,
        { s with
          reservations := s.reservations.map fun r =>
            if ((s.reservations.filter (res_expirable now)).map (·.id)).contains r.id
            then { r with status := "expired" } else r,
          copies := s.copies.map fun c =>
            if ((s.reservations.filter (res_expirable now)).map (·.copy_id)).contains c.id
                && c.status == "reserved"
            then { c with status := "available" } else c }) := by
  unfold expire_old_reservations
  cases hq : s.reservations.filter (res_expirable now) with
  | nil => simp
  | cons a l => simp

/-- The expiry sweep preserves the consistency invariant. -/
theorem inv_expire {now : Nat} {s : DB} (h : Inv s) :
    Inv (expire_old_reservations now s).2 := by
  rw [expire_old_reservations_eq]
  by_cases hq : (s.reservations.filter (res_expirable now)).isEmpty = true
  · rw [if_pos hq]
    exact h
  · rw [if_neg hq]
    refine ⟨?_, ?_, ?_, ?_, ?_⟩
    · rw [List.map_map]
      have hmm : s.copies.map ((fun c : CopyRec => c.id) ∘ fun c =>
          if ((s.reservations.filter (res_expirable now)).map (·.copy_id)).contains c.id
              && c.status == "reserved"
          then { c with status := "available" } else c) = s.copies.map (·.id) :=
        List.map_congr_left fun c _ => by
          show (if ((s.reservations.filter (res_expirable now)).map
              (·.copy_id)).contains c.id && c.status == "reserved"
            then { c with status := "available" } else c).id = c.id
          split <;> rfl
      rw [hmm]
      exact h.nodup_copy
    · intro l hl hact
      obtain ⟨c0, hfind, hst⟩ := Option.map_eq_some'.mp (h.loan_link l hl hact)
      rw [copy_status_update rfl, hfind]
      simp [hst]
    · intro r' hr' hact
      obtain ⟨r, hrmem, hrfr⟩ := List.mem_map.mp hr'
      by_cases hin : (((s.reservations.filter (res_expirable now)).map
          (·.id)).contains r.id) = true
      · exfalso
        rw [← hrfr, if_pos hin] at hact
        simp at hact
      · have hr'r : r' = r := by
          rw [← hrfr, if_neg hin]
        subst hr'r
        obtain ⟨c0, hfind, hst⟩ := Option.map_eq_some'.mp (h.res_link r' hrmem hact)
        have hpred := List.find?_some hfind
        have hc0id : c0.id = r'.copy_id := beq_iff_eq.mp hpred
        have hncont : ¬ c0.id ∈ ((s.reservations.filter (res_expirable now)).map
            (·.copy_id)) := by
          intro hmem
          obtain ⟨r2, hr2E, hr2c⟩ := List.mem_map.mp hmem
          obtain ⟨hr2mem, hr2exp⟩ := List.mem_filter.mp hr2E
          have hr2act : r2.status = "active" := by
            have h2e := hr2exp
            simp [res_expirable] at h2e
            exact h2e.1
          have hner : r' ≠ r2 := by
            intro hrr
            apply hin
            rw [hrr]
            simpa using List.mem_map_of_mem (·.id) hr2E
          have h2 : 2 ≤ s.reservations.countP
              (fun x => x.status == "active" && x.copy_id == r'.copy_id) := by
            refine two_le_countP hrmem hr2mem hner ?_ ?_
            · simp [hact]
            · simp [hr2act, hr2c, hc0id]
          have := h.res_uniq r'.copy_id
          unfold res_on at this
          omega
        have hcontf : (((s.reservations.filter (res_expirable now)).map
            (·.copy_id)).contains c0.id) = false := by
          rw [← Bool.not_eq_true]
          intro hcontra
          exact hncont (by simpa using hcontra)
        rw [copy_status_update rfl, hfind, Option.map_some',
          if_neg (by rw [hcontf]; simp), hst]
    · intro cid
      exact h.loan_uniq cid
    · intro cid
      have hle : res_on
          { s with
            reservations := s.reservations.map fun r =>
              if ((s.reservations.filter (res_expirable now)).map (·.id)).contains r.id
              then { r with status := "expired" } else r,
            copies := s.copies.map fun c =>
              if ((s.reservations.filter (res_expirable now)).map (·.copy_id)).contains c.id
                  && c.status == "reserved"
              then { c with status := "available" } else c } cid ≤ res_on s cid := by
        unfold res_on
        refine countP_map_le_of_imp (fun r hp => ?_) s.reservations
        by_cases hin : (((s.reservations.filter (res_expirable now)).map
            (·.id)).contains r.id) = true
        · rw [if_pos hin] at hp
          simp at hp
        · rwa [if_neg hin] at hp
      exact le_trans hle (h.res_uniq cid)

theorem nodup_ids_map {l : List CopyRec} {f : CopyRec → CopyRec}
    (hf : ∀ c, (f c).id = c.id) (h : (l.map (·.id)).Nodup) :
    ((l.map f).map (·.id)).Nodup := by
  rw [List.map_map]
  have heq : l.map ((fun c : CopyRec => c.id) ∘ f) = l.map (·.id) :=
    List.map_congr_left fun c _ => hf c
  rwa [heq]

/-- The bulk overdue update preserves the consistency invariant. -/
theorem inv_overdue {today : Nat} {s : DB} (h : Inv s) :
    Inv { s with loans := s.loans.map fun l =>
        if loan_overdue_eligible today l then { l with status := "overdue" } else l } := by
  refine ⟨h.nodup_copy, ?_, fun r hr ha => h.res_link r hr ha, ?_, h.res_uniq⟩
  · intro l' hl' hact
    obtain ⟨l, hl, hfl⟩ := List.mem_map.mp hl'
    by_cases he : loan_overdue_eligible today l = true
    · rw [if_pos he] at hfl
      have hopen : l.status = "open" := by
        have h2 := he
        simp [loan_overdue_eligible] at h2
        exact h2.1
      have hcp : l'.copy_id = l.copy_id := by rw [← hfl]
      rw [hcp]
      exact h.loan_link l hl (by simp [active_loan, ACTIVE_LOAN_STATUSES, hopen])
    · rw [if_neg he] at hfl
      rw [← hfl]
      exact h.loan_link l hl (hfl ▸ hact)
  · intro cid
    refine le_trans (le_of_eq ?_) (h.loan_uniq cid)
    show (s.loans.map fun l =>
        if loan_overdue_eligible today l then { l with status := "overdue" } else l).countP
        (fun l => active_loan l && l.copy_id == cid)
      = s.loans.countP (fun l => active_loan l && l.copy_id == cid)
    refine countP_map_eq_of_pres (fun a => ?_) s.loans
    by_cases he : loan_overdue_eligible today a = true
    · rw [if_pos he]
      have hopen : a.status = "open" := by
        have h2 := he
        simp [loan_overdue_eligible] at h2
        exact h2.1
      simp [active_loan, ACTIVE_LOAN_STATUSES, hopen]
    · rw [if_neg he]

/-- `return_loan` preserves the consistency invariant. -/
theorem inv_return {loan_id librarian_id today : Nat} {s : DB} (h : Inv s) :
    Inv (return_loan loan_id librarian_id today s).2 := by
  unfold return_loan
  split
  · exact h
  next loan0 hf0 =>
    split
    · exact h
    next hst0 =>
      split
      · exact h
      next loan hf =>
        split
        · exact h
        next hst =>
          have hlo : loan.status = "open" ∨ loan.status = "overdue" :=
            or_iff_not_imp_left.mpr (by simpa using hst)
          have hleq : loan0 = loan := Option.some.inj hf
          have hmem : loan ∈ s.loans := hleq ▸ List.mem_of_find?_eq_some hf0
          have hpred0 := List.find?_some hf0
          have hlid : loan.id = loan_id := by
            rw [← hleq]
            exact beq_iff_eq.mp hpred0
          have hactive : active_loan loan = true := by
            rcases hlo with hlo | hlo <;> simp [active_loan, ACTIVE_LOAN_STATUSES, hlo]
          refine ⟨?_, ?_, ?_, ?_, h.res_uniq⟩
          · exact nodup_ids_map (fun c => by split <;> rfl) h.nodup_copy
          · intro l' hl' hact
            obtain ⟨l, hl, hfl⟩ := List.mem_map.mp hl'
            by_cases hid : (l.id == loan_id) = true
            · exfalso
              rw [if_pos hid] at hfl
              rw [← hfl] at hact
              simp [active_loan, ACTIVE_LOAN_STATUSES] at hact
            · rw [if_neg hid] at hfl
              subst hfl
              have hne_copy : l.copy_id ≠ loan.copy_id := by
                intro hceq
                have hnel : l ≠ loan := by
                  intro hll
                  apply hid
                  rw [hll, hlid]
                  simp
                have h2 : 2 ≤ s.loans.countP
                    (fun x => active_loan x && x.copy_id == loan.copy_id) := by
                  refine two_le_countP hl hmem hnel ?_ ?_
                  · simp [hact, hceq]
                  · simp [hactive]
                have := h.loan_uniq loan.copy_id
                unfold loans_on at this
                omega
              obtain ⟨c0, hfindc, hstc⟩ :=
                Option.map_eq_some'.mp (h.loan_link l hl hact)
              have hpc0 := List.find?_some hfindc
              have hc0id : c0.id = l.copy_id := beq_iff_eq.mp hpc0
              rw [copy_status_update rfl, hfindc, Option.map_some',
                if_neg (by rw [hc0id]; simpa using hne_copy), hstc]
          · intro r hr hact
            have hres := h.res_link r hr hact
            obtain ⟨c0, hfindc, hstc⟩ := Option.map_eq_some'.mp hres
            have hpc0 := List.find?_some hfindc
            have hc0id : c0.id = r.copy_id := beq_iff_eq.mp hpc0
            have hne_copy : r.copy_id ≠ loan.copy_id := by
              intro hceq
              have hload := h.loan_link loan hmem hactive
              rw [← hceq] at hload
              rw [hres] at hload
              exact absurd hload (by decide)
            rw [copy_status_update rfl, hfindc, Option.map_some',
              if_neg (by rw [hc0id]; simpa using hne_copy), hstc]
          · intro cid
            refine le_trans ?_ (h.loan_uniq cid)
            show (s.loans.map _).countP _ ≤ loans_on s cid
            refine countP_map_le_of_imp (fun a hp => ?_) s.loans
            by_cases hid : (a.id == loan_id) = true
            · rw [if_pos hid] at hp
              simp [active_loan, ACTIVE_LOAN_STATUSES] at hp
            · rwa [if_neg hid] at hp

theorem min_by_id_eq_none {l : List CopyRec} : min_by_id l = none ↔ l = [] := by
  cases l with
  | nil => simp [min_by_id]
  | cons a l =>
    constructor
    · intro h
      exfalso
      rw [min_by_id] at h
      cases hm : min_by_id l with
      | none =>
        rw [hm] at h
        dsimp only at h
        cases h
      | some c2 =>
        rw [hm] at h
        dsimp only at h
        by_cases hle : a.id ≤ c2.id
        · rw [if_pos hle] at h
          cases h
        · rw [if_neg hle] at h
          cases h
    · intro h
      cases h

theorem min_by_id_mem {l : List CopyRec} {c : CopyRec} (h : min_by_id l = some c) :
    c ∈ l := by
  induction l generalizing c with
  | nil => cases h
  | cons a l ih =>
    rw [min_by_id] at h
    cases hm : min_by_id l with
    | none =>
      rw [hm] at h
      dsimp only at h
      exact List.mem_cons.mpr (Or.inl (Option.some.inj h).symm)
    | some c2 =>
      rw [hm] at h
      dsimp only at h
      by_cases hle : a.id ≤ c2.id
      · rw [if_pos hle] at h
        exact List.mem_cons.mpr (Or.inl (Option.some.inj h).symm)
      · rw [if_neg hle] at h
        have hc2 : c2 = c := Option.some.inj h
        exact List.mem_cons.mpr (Or.inr (ih (hm.trans (congrArg some hc2))))

theorem min_by_id_le {l : List CopyRec} {c : CopyRec} (h : min_by_id l = some c) :
    ∀ x ∈ l, c.id ≤ x.id := by
  induction l generalizing c with
  | nil => cases h
  | cons a l ih =>
    rw [min_by_id] at h
    intro x hx
    cases hm : min_by_id l with
    | none =>
      rw [hm] at h
      dsimp only at h
      have hl : l = [] := min_by_id_eq_none.mp hm
      subst hl
      rcases List.mem_cons.mp hx with rfl | hxl
      · rw [← Option.some.inj h]
      · cases hxl
    | some c2 =>
      rw [hm] at h
      dsimp only at h
      by_cases hle : a.id ≤ c2.id
      · rw [if_pos hle] at h
        have hac : a = c := Option.some.inj h
        rcases List.mem_cons.mp hx with rfl | hxl
        · rw [← hac]
        · calc c.id = a.id := by rw [hac]
            _ ≤ c2.id := hle
            _ ≤ x.id := ih hm x hxl
      · rw [if_neg hle] at h
        have hc2c : c2 = c := Option.some.inj h
        rcases List.mem_cons.mp hx with rfl | hxl
        · rw [← hc2c]
          omega
        · rw [← hc2c]
          exact ih hm x hxl

/-- The `create_reservation` transaction block preserves the invariant. -/
theorem inv_create_tx {reader_id book_id branch_id pickup_date : Nat} {s1 : DB}
    (h : Inv s1) :
    Inv (create_reservation_tx reader_id book_id branch_id pickup_date s1).2 := by
  unfold create_reservation_tx
  split
  · exact h
  next copy_obj hmin =>
    have hc_cand := min_by_id_mem hmin
    have hc_mem : copy_obj ∈ s1.copies := (List.mem_filter.mp hc_cand).1
    have hc_avail : copy_obj.status = "available" := by
      have h2 := (List.mem_filter.mp hc_cand).2
      simp only [Bool.and_eq_true] at h2
      exact beq_iff_eq.mp h2.1.2
    have hcs : copy_status s1 copy_obj.id = some "available" := by
      rw [copy_status_of_mem h.nodup_copy hc_mem, hc_avail]
    have hno_loan : ∀ l ∈ s1.loans, active_loan l = true → l.copy_id ≠ copy_obj.id := by
      intro l hl hactl hceq
      have hld := h.loan_link l hl hactl
      rw [hceq] at hld
      exact absurd (hcs.symm.trans hld) (by decide)
    have hno_res : ∀ r ∈ s1.reservations, r.status = "active" → r.copy_id ≠ copy_obj.id := by
      intro r hr hactr hceq
      have hrd := h.res_link r hr hactr
      rw [hceq] at hrd
      exact absurd (hcs.symm.trans hrd) (by decide)
    refine ⟨?_, ?_, ?_, fun cid => h.loan_uniq cid, ?_⟩
    · exact nodup_ids_map (fun c => by split <;> rfl) h.nodup_copy
    · intro l hl hact
      obtain ⟨c0, hfindc, hstc⟩ := Option.map_eq_some'.mp (h.loan_link l hl hact)
      have hpc0 := List.find?_some hfindc
      have hc0id : c0.id = l.copy_id := beq_iff_eq.mp hpc0
      rw [copy_status_update rfl, hfindc, Option.map_some',
        if_neg (by rw [hc0id]; simpa using hno_loan l hl hact), hstc]
    · intro r' hr' hact
      rcases List.mem_append.mp hr' with hr | hr
      · obtain ⟨c0, hfindc, hstc⟩ := Option.map_eq_some'.mp (h.res_link r' hr hact)
        have hpc0 := List.find?_some hfindc
        have hc0id : c0.id = r'.copy_id := beq_iff_eq.mp hpc0
        rw [copy_status_update rfl, hfindc, Option.map_some',
          if_neg (by rw [hc0id]; simpa using hno_res r' hr hact), hstc]
      · rw [List.mem_singleton] at hr
        subst hr
        rw [copy_status_update rfl]
        show ((s1.copies.find? fun c => c.id == copy_obj.id).map _) = _
        have hfind := find?_key_of_nodup (fun c : CopyRec => c.id)
          h.nodup_copy hc_mem
        rw [hfind, Option.map_some', if_pos (by simp)]
    · intro cid
      have hx : ∀ newr : ReservationRec, newr.copy_id = copy_obj.id →
          (s1.reservations ++ [newr]).countP
            (fun r => r.status == "active" && r.copy_id == cid) ≤ 1 := by
        intro newr hnc
        rw [List.countP_append]
        by_cases hcid : copy_obj.id = cid
        · have h0 : s1.reservations.countP
              (fun r => r.status == "active" && r.copy_id == cid) = 0 :=
            List.countP_eq_zero.mpr (by
              intro r hr hp
              rw [Bool.and_eq_true] at hp
              exact hno_res r hr (beq_iff_eq.mp hp.1)
                ((beq_iff_eq.mp hp.2).trans hcid.symm))
          have h1 := List.countP_le_length
            (fun r : ReservationRec => r.status == "active" && r.copy_id == cid)
            (l := [newr])
          simp only [List.length_singleton] at h1
          omega
        · have h1 : ([newr] : List ReservationRec).countP
              (fun r => r.status == "active" && r.copy_id == cid) = 0 := by
            simp [List.countP_cons, hnc, hcid]
          rw [h1]
          have := h.res_uniq cid
          unfold res_on at this
          omega
      exact hx _ rfl

/-- The `cancel_reservation` transaction block preserves the invariant. -/
theorem inv_cancel_tx {reader_id rid : Nat} {s1 : DB} (h : Inv s1) :
    Inv (cancel_reservation_tx reader_id rid s1).2 := by
  unfold cancel_reservation_tx
  split
  · exact h
  next res hfr =>
    split
    · exact h
    next =>
      split
      · exact h
      next hstat =>
        have hact : res.status = "active" := by simpa using hstat
        have hmem : res ∈ s1.reservations := List.mem_of_find?_eq_some hfr
        have hpr := List.find?_some hfr
        have hrid : res.id = rid := beq_iff_eq.mp hpr
        refine ⟨?_, ?_, ?_, fun cid => h.loan_uniq cid, ?_⟩
        · exact nodup_ids_map (fun c => by split <;> rfl) h.nodup_copy
        · intro l hl hactl
          obtain ⟨c0, hfindc, hstc⟩ := Option.map_eq_some'.mp (h.loan_link l hl hactl)
          rw [copy_status_update rfl, hfindc, Option.map_some',
            if_neg (by simp [hstc]), hstc]
        · intro r' hr' hactr
          obtain ⟨r, hr, hfl⟩ := List.mem_map.mp hr'
          by_cases hid : (r.id == rid) = true
          · exfalso
            rw [if_pos hid] at hfl
            rw [← hfl] at hactr
            simp at hactr
          · rw [if_neg hid] at hfl
            subst hfl
            obtain ⟨c0, hfindc, hstc⟩ := Option.map_eq_some'.mp (h.res_link r hr hactr)
            have hpc0 := List.find?_some hfindc
            have hc0id : c0.id = r.copy_id := beq_iff_eq.mp hpc0
            have hne : r.copy_id ≠ res.copy_id := by
              intro hceq
              have hner : r ≠ res := by
                intro hrr
                apply hid
                rw [hrr, hrid]
                simp
              have h2 : 2 ≤ s1.reservations.countP
                  (fun x => x.status == "active" && x.copy_id == res.copy_id) := by
                refine two_le_countP hr hmem hner ?_ ?_
                · simp [hactr, hceq]
                · simp [hact]
              have := h.res_uniq res.copy_id
              unfold res_on at this
              omega
            rw [copy_status_update rfl, hfindc, Option.map_some',
              if_neg (by rw [hc0id]; simp [hne]), hstc]
        · intro cid
          refine le_trans ?_ (h.res_uniq cid)
          show (s1.reservations.map _).countP _ ≤ res_on s1 cid
          refine countP_map_le_of_imp (fun a hp => ?_) s1.reservations
          by_cases hid : (a.id == rid) = true
          · rw [if_pos hid] at hp
            simp at hp
          · rwa [if_neg hid] at hp

/-- The `extend_reservation` transaction block preserves the invariant. -/
theorem inv_extend_tx {reader_id rid : Nat} {s1 : DB} (h : Inv s1) :
    Inv (extend_reservation_tx reader_id rid s1).2 := by
  unfold extend_reservation_tx
  split
  · exact h
  next res hfr =>
    split
    · exact h
    next =>
      split
      · exact h
      next =>
        split
        · exact h
        next =>
          refine ⟨h.nodup_copy, fun l hl ha => h.loan_link l hl ha, ?_,
            fun cid => h.loan_uniq cid, ?_⟩
          · intro r' hr' hactr
            obtain ⟨r, hr, hfl⟩ := List.mem_map.mp hr'
            by_cases hid : (r.id == rid) = true
            · rw [if_pos hid] at hfl
              rw [← hfl] at hactr ⊢
              exact h.res_link r hr hactr
            · rw [if_neg hid] at hfl
              rw [← hfl] at hactr ⊢
              exact h.res_link r hr hactr
          · intro cid
            refine le_trans (le_of_eq ?_) (h.res_uniq cid)
            show (s1.reservations.map _).countP _ = res_on s1 cid
            refine countP_map_eq_of_pres (fun a => ?_) s1.reservations
            by_cases hid : (a.id == rid) = true
            · rw [if_pos hid]
            · rw [if_neg hid]

/-- The `fulfill_reservation` transaction block preserves the invariant. -/
theorem inv_fulfill_tx {librarian_id rid loan_days today : Nat} {s1 : DB}
    (h : Inv s1) :
    Inv (fulfill_reservation_tx librarian_id rid loan_days today s1).2 := by
  unfold fulfill_reservation_tx
  split
  · exact h
  next res hfr =>
    split
    · exact h
    next copy_obj hfc =>
      split
      · exact h
      next hres_act0 =>
        split
        · exact h
        next hcres0 =>
          split
          · exact h
          next hnoany =>
            have hact : res.status = "active" := by simpa using hres_act0
            have hcres : copy_obj.status = "reserved" := by simpa using hcres0
            have hmemr : res ∈ s1.reservations := List.mem_of_find?_eq_some hfr
            have hpr := List.find?_some hfr
            have hrid : res.id = rid := beq_iff_eq.mp hpr
            have hpc := List.find?_some hfc
            have hcid0 : copy_obj.id = res.copy_id := beq_iff_eq.mp hpc
            have hno_loan : ∀ l ∈ s1.loans, active_loan l = true →
                l.copy_id ≠ copy_obj.id := by
              intro l hl hactl hceq
              apply hnoany
              rw [List.any_eq_true]
              refine ⟨l, hl, ?_⟩
              rw [Bool.and_eq_true]
              exact ⟨by simp [hceq], hactl⟩
            refine ⟨?_, ?_, ?_, ?_, ?_⟩
            · exact nodup_ids_map (fun c => by split <;> rfl) h.nodup_copy
            · intro l' hl' hactl
              rcases List.mem_append.mp hl' with hl | hl
              · obtain ⟨c0, hfindc, hstc⟩ :=
                  Option.map_eq_some'.mp (h.loan_link l' hl hactl)
                have hpc0 := List.find?_some hfindc
                have hc0id : c0.id = l'.copy_id := beq_iff_eq.mp hpc0
                rw [copy_status_update rfl, hfindc, Option.map_some',
                  if_neg (by rw [hc0id]; simpa using hno_loan l' hl hactl), hstc]
              · rw [List.mem_singleton] at hl
                subst hl
                rw [copy_status_update rfl]
                show ((s1.copies.find? fun c => c.id == copy_obj.id).map _) = _
                rw [hcid0, hfc, Option.map_some', if_pos hpc]
            · intro r' hr' hactr
              obtain ⟨r, hr, hfl⟩ := List.mem_map.mp hr'
              by_cases hid : (r.id == rid) = true
              · exfalso
                rw [if_pos hid] at hfl
                rw [← hfl] at hactr
                simp at hactr
              · rw [if_neg hid] at hfl
                subst hfl
                obtain ⟨c0, hfindc, hstc⟩ :=
                  Option.map_eq_some'.mp (h.res_link r hr hactr)
                have hpc0 := List.find?_some hfindc
                have hc0id : c0.id = r.copy_id := beq_iff_eq.mp hpc0
                have hne : r.copy_id ≠ copy_obj.id := by
                  intro hceq
                  have hner : r ≠ res := by
                    intro hrr
                    apply hid
                    rw [hrr, hrid]
                    simp
                  have h2 : 2 ≤ s1.reservations.countP
                      (fun x => x.status == "active" && x.copy_id == res.copy_id) := by
                    refine two_le_countP hr hmemr hner ?_ ?_
                    · rw [Bool.and_eq_true]
                      refine ⟨by simp [hactr], ?_⟩
                      rw [hceq, hcid0]
                      simp
                    · simp [hact]
                  have := h.res_uniq res.copy_id
                  unfold res_on at this
                  omega
                rw [copy_status_update rfl, hfindc, Option.map_some',
                  if_neg (by rw [hc0id]; simpa using hne), hstc]
            · intro cid
              have hx : ∀ newl : LoanRec, newl.copy_id = copy_obj.id →
                  (s1.loans ++ [newl]).countP
                    (fun l => active_loan l && l.copy_id == cid) ≤ 1 := by
                intro newl hnc
                rw [List.countP_append]
                by_cases hcid : copy_obj.id = cid
                · have h0 : s1.loans.countP
                      (fun l => active_loan l && l.copy_id == cid) = 0 :=
                    List.countP_eq_zero.mpr (by
                      intro l hl hp
                      rw [Bool.and_eq_true] at hp
                      exact hno_loan l hl hp.1
                        ((beq_iff_eq.mp hp.2).trans hcid.symm))
                  have h1 := List.countP_le_length
                    (fun l : LoanRec => active_loan l && l.copy_id == cid)
                    (l := [newl])
                  simp only [List.length_singleton] at h1
                  omega
                · have h1 : ([newl] : List LoanRec).countP
                      (fun l => active_loan l && l.copy_id == cid) = 0 := by
                    simp [List.countP_cons, hnc, hcid]
                  rw [h1]
                  have := h.loan_uniq cid
                  unfold loans_on at this
                  omega
              exact hx _ rfl
            · intro cid
              refine le_trans ?_ (h.res_uniq cid)
              show (s1.reservations.map _).countP _ ≤ res_on s1 cid
              refine countP_map_le_of_imp (fun a hp => ?_) s1.reservations
              by_cases hid : (a.id == rid) = true
              · rw [if_pos hid] at hp
                simp at hp
              · rwa [if_neg hid] at hp

/-- `issue_loan` preserves the invariant. -/
theorem inv_issue {code login : String} {librarian_id today : Nat} {s : DB}
    (h : Inv s) : Inv (issue_loan code login librarian_id today s).2 := by
  unfold issue_loan
  dsimp only
  split
  · exact h
  split
  · exact h
  next copy hfcopy =>
    split
    · exact h
    next hav0 =>
      split
      · exact h
      next reader hfreader =>
        split
        · exact h
        next copy2 hfcopy2 =>
          split
          · exact h
          next hav2 =>
            have hav : copy2.status = "available" := by simpa using hav2
            have hc_mem : copy ∈ s.copies := List.mem_of_find?_eq_some hfcopy
            have hc2 : copy2 = copy := by
              have hself := find?_key_of_nodup (fun c : CopyRec => c.id)
                h.nodup_copy hc_mem
              rw [hself] at hfcopy2
              exact (Option.some.inj hfcopy2).symm
            have hcs : copy_status s copy2.id = some "available" := by
              rw [hc2, copy_status_of_mem h.nodup_copy hc_mem, ← hc2, hav]
            have hno_loan : ∀ l ∈ s.loans, active_loan l = true →
                l.copy_id ≠ copy2.id := by
              intro l hl hactl hceq
              have hld := h.loan_link l hl hactl
              rw [hceq] at hld
              exact absurd (hcs.symm.trans hld) (by decide)
            have hno_res : ∀ r ∈ s.reservations, r.status = "active" →
                r.copy_id ≠ copy2.id := by
              intro r hr hactr hceq
              have hrd := h.res_link r hr hactr
              rw [hceq] at hrd
              exact absurd (hcs.symm.trans hrd) (by decide)
            refine ⟨?_, ?_, ?_, ?_, fun cid => h.res_uniq cid⟩
            · exact nodup_ids_map (fun c => by split <;> rfl) h.nodup_copy
            · intro l' hl' hactl
              rcases List.mem_append.mp hl' with hl | hl
              · obtain ⟨c0, hfindc, hstc⟩ :=
                  Option.map_eq_some'.mp (h.loan_link l' hl hactl)
                have hpc0 := List.find?_some hfindc
                have hc0id : c0.id = l'.copy_id := beq_iff_eq.mp hpc0
                rw [copy_status_update rfl, hfindc, Option.map_some',
                  if_neg (by rw [hc0id]; simpa using hno_loan l' hl hactl), hstc]
              · rw [List.mem_singleton] at hl
                subst hl
                rw [copy_status_update rfl]
                show ((s.copies.find? fun c => c.id == copy2.id).map _) = _
                rw [hc2]
                have hself := find?_key_of_nodup (fun c : CopyRec => c.id)
                  h.nodup_copy hc_mem
                rw [hself, Option.map_some', if_pos (by simp)]
            · intro r hr hactr
              obtain ⟨c0, hfindc, hstc⟩ :=
                Option.map_eq_some'.mp (h.res_link r hr hactr)
              have hpc0 := List.find?_some hfindc
              have hc0id : c0.id = r.copy_id := beq_iff_eq.mp hpc0
              rw [copy_status_update rfl, hfindc, Option.map_some',
                if_neg (by rw [hc0id]; simpa using hno_res r hr hactr), hstc]
            · intro cid
              have hx : ∀ newl : LoanRec, newl.copy_id = copy2.id →
                  (s.loans ++ [newl]).countP
                    (fun l => active_loan l && l.copy_id == cid) ≤ 1 := by
                intro newl hnc
                rw [List.countP_append]
                by_cases hcid : copy2.id = cid
                · have h0 : s.loans.countP
                      (fun l => active_loan l && l.copy_id == cid) = 0 :=
                    List.countP_eq_zero.mpr (by
                      intro l hl hp
                      rw [Bool.and_eq_true] at hp
                      exact hno_loan l hl hp.1
                        ((beq_iff_eq.mp hp.2).trans hcid.symm))
                  have h1 := List.countP_le_length
                    (fun l : LoanRec => active_loan l && l.copy_id == cid)
                    (l := [newl])
                  simp only [List.length_singleton] at h1
                  omega
                · have h1 : ([newl] : List LoanRec).countP
                      (fun l => active_loan l && l.copy_id == cid) = 0 := by
                    simp [List.countP_cons, hnc, hcid]
                  rw [h1]
                  have := h.loan_uniq cid
                  unfold loans_on at this
                  omega
              exact hx _ rfl

/-- Every engine operation preserves the consistency invariant. -/
theorem inv_apply_op (op : Op) {s : DB} (h : Inv s) : Inv (apply_op op s) := by
  cases op with
  | opExpire now => exact inv_expire h
  | opCreate reader_id book_id branch_id pickup_date today now =>
    show Inv (create_reservation reader_id book_id branch_id pickup_date today now s).2
    unfold create_reservation
    split
    · exact h
    · exact inv_create_tx (inv_expire h)
  | opCancel reader_id rid now => exact inv_cancel_tx (inv_expire h)
  | opExtend reader_id rid now => exact inv_extend_tx (inv_expire h)
  | opFulfill librarian_id rid loan_days today now =>
    exact inv_fulfill_tx (inv_expire h)
  | opIssue code login librarian_id today => exact inv_issue h
  | opReturn loan_id librarian_id today => exact inv_return h
  | opOverdue today => exact inv_overdue h

/-- The invariant holds in every state reachable by engine operations. -/
theorem inv_run_ops (ops : List Op) {s : DB} (h : Inv s) : Inv (run_ops ops s) := by
  induction ops generalizing s with
  | nil => exact h
  | cons op rest ih => exact ih (inv_apply_op op h)

/-! ### Facts about the expiry sweep used by the per-operation claims -/

theorem sweep_noop_of_filter_nil {now : Nat} {s : DB}
    (hnil : s.reservations.filter (res_expirable now) = []) :
    expire_old_reservations now s = (0, s) := by
  rw [expire_old_reservations_eq, if_pos (List.isEmpty_iff.mpr hnil)]

/-- If the sweep leaves the state unchanged, no reservation is expirable. -/
theorem no_expirable_of_clean {now : Nat} {s : DB}
    (hclean : (expire_old_reservations now s).2 = s) :
    ∀ r ∈ s.reservations, res_expirable now r = false := by
  intro r hr
  by_cases hnil : s.reservations.filter (res_expirable now) = []
  · rw [← Bool.not_eq_true]
    exact (List.filter_eq_nil_iff.mp hnil) r hr
  · exfalso
    rw [expire_old_reservations_eq] at hclean
    rw [if_neg (by simpa using hnil)] at hclean
    have hres : s.reservations.map (fun x =>
        if ((s.reservations.filter (res_expirable now)).map (·.id)).contains x.id
        then { x with status := "expired" } else x) = s.reservations :=
      congrArg DB.reservations hclean
    have hpos : 0 < s.reservations.countP (res_expirable now) := by
      rcases List.exists_mem_of_ne_nil _ hnil with ⟨r0, hr0⟩
      obtain ⟨hr0m, hr0e⟩ := List.mem_filter.mp hr0
      exact List.countP_pos_iff.mpr ⟨r0, hr0m, hr0e⟩
    have hzero : (s.reservations.map (fun x =>
        if ((s.reservations.filter (res_expirable now)).map (·.id)).contains x.id
        then { x with status := "expired" } else x)).countP (res_expirable now) = 0 := by
      refine List.countP_eq_zero.mpr ?_
      intro y hy
      obtain ⟨x, hx, hxy⟩ := List.mem_map.mp hy
      by_cases hin : (((s.reservations.filter (res_expirable now)).map
          (·.id)).contains x.id) = true
      · rw [if_pos hin] at hxy
        rw [← hxy]
        simp [res_expirable]
      · rw [if_neg hin] at hxy
        rw [← hxy]
        intro hex
        apply hin
        have : x.id ∈ (s.reservations.filter (res_expirable now)).map (·.id) :=
          List.mem_map_of_mem _ (List.mem_filter.mpr ⟨hx, hex⟩)
        simpa using this
    rw [hres] at hzero
    omega

/-- Conversely, a state with no expirable reservation is untouched. -/
theorem clean_of_no_expirable {now : Nat} {s : DB}
    (h : ∀ r ∈ s.reservations, res_expirable now r = false) :
    expire_old_reservations now s = (0, s) :=
  sweep_noop_of_filter_nil (List.filter_eq_nil_iff.mpr fun r hr => by
    rw [h r hr]
    simp)

/-- After a sweep at `now`, a second sweep at `now` finds nothing. -/
theorem expire_idem (now : Nat) (s : DB) :
    expire_old_reservations now (expire_old_reservations now s).2
      = (0, (expire_old_reservations now s).2) := by
  apply sweep_noop_of_filter_nil
  refine List.filter_eq_nil_iff.mpr ?_
  intro y hy
  rw [expire_old_reservations_eq] at hy
  by_cases hq : (s.reservations.filter (res_expirable now)).isEmpty = true
  · rw [if_pos hq] at hy
    have hnil : s.reservations.filter (res_expirable now) = [] :=
      List.isEmpty_iff.mp hq
    have := (List.filter_eq_nil_iff.mp hnil) y hy
    simpa using this
  · rw [if_neg hq] at hy
    obtain ⟨x, hx, hxy⟩ := List.mem_map.mp hy
    by_cases hin : (((s.reservations.filter (res_expirable now)).map
        (·.id)).contains x.id) = true
    · rw [if_pos hin] at hxy
      rw [← hxy]
      simp [res_expirable]
    · rw [if_neg hin] at hxy
      rw [← hxy]
      intro hex
      apply hin
      have : x.id ∈ (s.reservations.filter (res_expirable now)).map (·.id) :=
        List.mem_map_of_mem _ (List.mem_filter.mpr ⟨hx, hex⟩)
      simpa using this

/-! ### Sample stores used by the witnesses -/

/-- A one-copy store with an available copy and a registered reader. -/
def wdb : DB :=
  { copies := [{ id := 1, inventory_code := "INV-0001", status := "available",
                 book_id := 1, location_id := some 1 }],
    locations := [{ id := 1, branch_id := 1 }],
    users := [{ id := 2, login := "kap213" }],
    loans := [], reservations := [],
    next_loan_id := 1, next_reservation_id := 1 }

/-- A store holding one reserved copy under an active reservation that
expires at the end of day 1. -/
def wdb_expiry : DB :=
  { copies := [{ id := 1, inventory_code := "INV-0001", status := "reserved",
                 book_id := 1, location_id := some 1 }],
    locations := [{ id := 1, branch_id := 1 }],
    users := [{ id := 2, login := "kap213" }],
    loans := [],
    reservations := [{ id := 1, status := "active", pickup_date := 1,
                       expires_at := _end_of_day 1, extended_once := false,
                       reader_id := 2, copy_id := 1, branch_id := 1 }],
    next_loan_id := 1, next_reservation_id := 2 }

/-- A store where the copy on loan was marked lost while out. -/
def wdb_lost : DB :=
  { copies := [{ id := 5, inventory_code := "INV-0005", status := "lost",
                 book_id := 1, location_id := some 1 }],
    locations := [{ id := 1, branch_id := 1 }],
    users := [{ id := 2, login := "kap213" }],
    loans := [{ id := 1, status := "open", start_date := 0, due_date := 14,
                return_date := none, copy_id := 5, reader_id := 2, librarian_id := 3 }],
    reservations := [], next_loan_id := 2, next_reservation_id := 1 }

/-! ### Claims -/

/-- C3: `expire_old_reservations` sets status=expired for exactly the
reservations that are active with expiry timestamp strictly before `now`,
resets each such reservation's copy to available only if that copy is
still reserved (all other copy statuses and the loans are untouched),
returns the number of reservations expired, and a second call with the
same clock returns 0. -/
theorem C3_expire_old_reservations (now : Nat) (s : DB)
    (hnd : (s.reservations.map (·.id)).Nodup) :
    ((expire_old_reservations now s).2.reservations
        = s.reservations.map fun r =>
            if res_expirable now r then { r with status := "expired" } else r)
    ∧ ((expire_old_reservations now s).2.copies
        = s.copies.map fun c =>
            if ((s.reservations.filter (res_expirable now)).map (·.copy_id)).contains c.id
                && c.status == "reserved"
            then { c with status := "available" } else c)
    ∧ (expire_old_reservations now s).1 = s.reservations.countP (res_expirable now)
    ∧ (expire_old_reservations now s).2.loans = s.loans
    ∧ (expire_old_reservations now (expire_old_reservations now s).2).1 = 0 := by
  have hiff : ∀ r ∈ s.reservations,
      (((s.reservations.filter (res_expirable now)).map (·.id)).contains r.id)
        = res_expirable now r := by
    intro r hr
    by_cases he : res_expirable now r = true
    · rw [he]
      have hm : r.id ∈ (s.reservations.filter (res_expirable now)).map (·.id) :=
        List.mem_map_of_mem _ (List.mem_filter.mpr ⟨hr, he⟩)
      simpa using hm
    · rw [Bool.not_eq_true] at he
      rw [he, ← Bool.not_eq_true]
      intro hcont
      have hmm : r.id ∈ (s.reservations.filter (res_expirable now)).map (·.id) := by
        simpa using hcont
      obtain ⟨r2, hr2f, hr2id⟩ := List.mem_map.mp hmm
      obtain ⟨hr2mem, hr2e⟩ := List.mem_filter.mp hr2f
      have hr2r : r2 = r := List.inj_on_of_nodup_map hnd hr2mem hr hr2id
      rw [hr2r] at hr2e
      rw [hr2e] at he
      cases he
  refine ⟨?_, ?_, ?_, ?_, ?_⟩
  · rw [expire_old_reservations_eq]
    by_cases hq : (s.reservations.filter (res_expirable now)).isEmpty = true
    · rw [if_pos hq]
      have hnil := List.isEmpty_iff.mp hq
      have hnone : ∀ r ∈ s.reservations, res_expirable now r = false := by
        intro r hr
        rw [← Bool.not_eq_true]
        exact List.filter_eq_nil_iff.mp hnil r hr
      symm
      have hpt : ∀ r ∈ s.reservations,
          (if res_expirable now r then { r with status := "expired" } else r) = id r := by
        intro r hr
        rw [hnone r hr]
        simp
      rw [List.map_congr_left hpt, List.map_id]
    · rw [if_neg hq]
      refine List.map_congr_left fun r hr => ?_
      rw [hiff r hr]
  · rw [expire_old_reservations_eq]
    by_cases hq : (s.reservations.filter (res_expirable now)).isEmpty = true
    · rw [if_pos hq]
      have hnil := List.isEmpty_iff.mp hq
      symm
      have hpt : ∀ c ∈ s.copies,
          (if ((s.reservations.filter (res_expirable now)).map (·.copy_id)).contains c.id
              && c.status == "reserved"
           then { c with status := "available" } else c) = id c := by
        intro c hc
        rw [hnil]
        simp
      rw [List.map_congr_left hpt, List.map_id]
    · rw [if_neg hq]
  · rw [expire_old_reservations_eq]
    by_cases hq : (s.reservations.filter (res_expirable now)).isEmpty = true
    · rw [if_pos hq]
      have hnil := List.isEmpty_iff.mp hq
      symm
      refine List.countP_eq_zero.mpr ?_
      intro r hr
      have := List.filter_eq_nil_iff.mp hnil r hr
      simpa using this
    · rw [if_neg hq]
      rw [List.countP_eq_length_filter]
  · rw [expire_old_reservations_eq]
    split <;> rfl
  · rw [expire_idem]

/-- Witness for C3 on a store with one stale reservation: the first sweep
at the start of day 2 expires it (count 1 = the eligible count) and the
second sweep returns 0. -/
theorem C3_witness :
    ((expire_old_reservations 172800 wdb_expiry).1
        = wdb_expiry.reservations.countP (res_expirable 172800))
      ∧ (expire_old_reservations 172800
          (expire_old_reservations 172800 wdb_expiry).2).1 = 0 :=
  ⟨(C3_expire_old_reservations 172800 wdb_expiry (by decide)).2.2.1,
   (C3_expire_old_reservations 172800 wdb_expiry (by decide)).2.2.2.2⟩

/-- C1: at-most-one-holder — in every state reachable by engine
operations (create/fulfill/cancel/extend reservation, expiry sweep, loan
issue/return, overdue update) from a store satisfying the consistency
invariant, the open/overdue loans on a copy together with the active
reservations on it number at most one. -/
theorem C1_at_most_one_holder (s0 : DB) (h0 : Inv s0) (ops : List Op) (cid : Nat) :
    holders (run_ops ops s0) cid ≤ 1 :=
  holders_le_one_of_inv (inv_run_ops ops h0) cid

/-- Witness for C1: issuing a loan on the consistent one-copy store keeps
the copy at one holder at most. -/
theorem C1_witness :
    holders (run_ops [Op.opIssue "INV-0001" "kap213" 3 0] wdb) 1 ≤ 1 :=
  C1_at_most_one_holder wdb
    ⟨by decide,
     by intro l hl ha; simp [wdb] at hl,
     by intro r hr ha; simp [wdb] at hr,
     by intro cid; simp [loans_on, wdb],
     by intro cid; simp [res_on, wdb]⟩
    [Op.opIssue "INV-0001" "kap213" 3 0] 1

/-- C2 counterexample: the claim fails on the code as stated about the
engine operations.  The engine function `issue_loan` performs no
permission check (it does not even receive the session): with a caller
session whose rights are exactly `{manage_loans: false}` — so `can`
denies the required key — the engine call still returns success and
mutates the store, instead of returning a permission-denied failure
before any write with state unchanged. -/
theorem C2_counterexample :
    Session.can ⟨7, ["Reader"], [("manage_loans", RVal.b false)]⟩ "manage_loans" = false
    ∧ (issue_loan "INV-0001" "kap213" 7 0 wdb).1.1 = true
    ∧ (issue_loan "INV-0001" "kap213" 7 0 wdb).2 ≠ wdb :=
  ⟨by decide, by decide, by decide⟩

/-- C2 amended: the permission guards live in the GUI entry points, the
sole callers of the engine: when the caller's session lacks the required
key, each entry point returns before invoking the engine, performing no
store access, so all copy, loan and reservation state is unchanged. -/
theorem C2_permission_guards (sess : Session) (s : DB) :
    (sess.can "manage_loans" = false →
      (∀ inv rl today, _ui_issue_loan sess inv rl today s = s)
      ∧ (∀ loan_id today, _ui_return_loan sess loan_id today s = s)
      ∧ (∀ today, _ui_update_overdue sess today s = s))
    ∧ (sess.can "create_reservation" = false →
        ∀ book_id branch_id pickup_date today now,
          _ui_reserve_book sess book_id branch_id pickup_date today now s = s)
    ∧ (sess.can "manage_own_reservations" = false →
        (∀ rid now, _ui_cancel_reservation sess rid now s = s)
        ∧ (∀ rid now, _ui_extend_reservation sess rid now s = s))
    ∧ (sess.can "manage_reservations" = false →
        ∀ rid today now, _ui_fulfill_reservation sess rid today now s = s) := by
  refine ⟨?_, ?_, ?_, ?_⟩
  · intro hcan
    refine ⟨fun inv rl today => ?_, fun lid today => ?_, fun today => ?_⟩
    · unfold _ui_issue_loan
      rw [if_pos (by rw [hcan]; rfl)]
    · unfold _ui_return_loan
      rw [if_pos (by rw [hcan]; rfl)]
    · unfold _ui_update_overdue
      rw [if_pos (by rw [hcan]; rfl)]
  · intro hcan book_id branch_id pickup_date today now
    unfold _ui_reserve_book
    rw [if_pos (by rw [hcan]; rfl)]
  · intro hcan
    refine ⟨fun rid now => ?_, fun rid now => ?_⟩
    · unfold _ui_cancel_reservation
      rw [if_pos (by rw [hcan]; rfl)]
    · unfold _ui_extend_reservation
      rw [if_pos (by rw [hcan]; rfl)]
  · intro hcan rid today now
    unfold _ui_fulfill_reservation
    rw [if_pos (by rw [hcan]; rfl)]

/-- Witness for C2: the issue-loan entry point, called by a session whose
rights deny `manage_loans`, leaves the store untouched. -/
theorem C2_witness :
    _ui_issue_loan ⟨7, ["Reader"], [("manage_loans", RVal.b false)]⟩
        "INV-0001" "kap213" 0 wdb = wdb :=
  ((C2_permission_guards ⟨7, ["Reader"], [("manage_loans", RVal.b false)]⟩ wdb).1
    (by decide)).1 "INV-0001" "kap213" 0

/-- C4: `create_reservation` rejects a pickup date outside
[today, today+3] (both bounds inclusive) with a validation message and no
state change; with a valid date, on a store with no stale reservations
pending, it fails with the no-copies message (again leaving the store
unchanged) when no available copy of the book exists at the branch, and
otherwise reserves the available candidate with the least copy id and
inserts an active reservation whose expiry is `_end_of_day pickup_date`,
i.e. 23:59:59 of the pickup day. -/
theorem C4_create_reservation (reader_id book_id branch_id pickup_date today now : Nat)
    (s : DB) (hclean : (expire_old_reservations now s).2 = s) :
    ((pickup_date < today ∨ pickup_date > today + 3) →
      create_reservation reader_id book_id branch_id pickup_date today now s
        = ((false, "Дату можно выбрать от сегодня до сегодня+3 дня.", none), s))
    ∧ (today ≤ pickup_date → pickup_date ≤ today + 3 →
        available_candidates s book_id branch_id = [] →
        create_reservation reader_id book_id branch_id pickup_date today now s
          = ((false, "В этом филиале уже нет свободных экземпляров.", none), s))
    ∧ (today ≤ pickup_date → pickup_date ≤ today + 3 →
        ∀ copy_obj,
          min_by_id (available_candidates s book_id branch_id) = some copy_obj →
          copy_obj ∈ available_candidates s book_id branch_id
          ∧ (∀ c ∈ available_candidates s book_id branch_id, copy_obj.id ≤ c.id)
          ∧ create_reservation reader_id book_id branch_id pickup_date today now s
            = ((true, "Резерв создан до конца дня " ++ toString pickup_date ++ ".",
                some s.next_reservation_id),
               { s with
                 copies := s.copies.map fun c =>
                   if c.id == copy_obj.id then { c with status := "reserved" } else c,
                 reservations := s.reservations ++
                   [{ id := s.next_reservation_id, status := "active",
                      pickup_date := pickup_date,
                      expires_at := _end_of_day pickup_date, extended_once := false,
                      reader_id := reader_id, copy_id := copy_obj.id,
                      branch_id := branch_id }],
                 next_reservation_id := s.next_reservation_id + 1 })) := by
  refine ⟨?_, ?_, ?_⟩
  · intro hbad
    unfold create_reservation
    rw [if_pos (by rcases hbad with h | h <;> simp [h])]
  · intro h1 h2 hempty
    unfold create_reservation
    rw [if_neg (by simp only [Bool.or_eq_true, decide_eq_true_eq]; omega), hclean]
    unfold create_reservation_tx
    rw [min_by_id_eq_none.mpr hempty]
  · intro h1 h2 copy_obj hmin
    refine ⟨min_by_id_mem hmin, min_by_id_le hmin, ?_⟩
    unfold create_reservation
    rw [if_neg (by simp only [Bool.or_eq_true, decide_eq_true_eq]; omega), hclean]
    unfold create_reservation_tx
    rw [hmin]

/-- Witness for C4: on the one-copy store the available copy is the valid
candidate, and an out-of-range pickup date (9, with today = 0) is
rejected without touching the store. -/
theorem C4_witness :
    (({ id := 1, inventory_code := "INV-0001", status := "available",
        book_id := 1, location_id := some 1 } : CopyRec)
      ∈ available_candidates wdb 1 1)
    ∧ create_reservation 2 1 1 9 0 0 wdb
        = ((false, "Дату можно выбрать от сегодня до сегодня+3 дня.", none), wdb) :=
  ⟨((C4_create_reservation 2 1 1 0 0 0 wdb (by decide)).2.2 (by decide) (by decide)
      { id := 1, inventory_code := "INV-0001", status := "available",
        book_id := 1, location_id := some 1 } (by decide)).1,
   (C4_create_reservation 2 1 1 9 0 0 wdb (by decide)).1 (Or.inr (by decide))⟩

/-- C5: `fulfill_reservation` (on a store with no stale reservations
pending) fails with no state change unless the reservation exists and is
active, its copy row exists with status reserved, and no open/overdue
loan references that copy; when all conditions hold it appends an open
loan starting today and due in `loan_days` days, marks the reservation
fulfilled and the copy loaned in a single state transition. -/
theorem C5_fulfill_reservation (librarian_id rid loan_days today now : Nat)
    (s : DB) (hclean : (expire_old_reservations now s).2 = s) :
    ((fulfill_reservation librarian_id rid loan_days today now s).1.1 = false →
      (fulfill_reservation librarian_id rid loan_days today now s).2 = s)
    ∧ ((fulfill_reservation librarian_id rid loan_days today now s).1.1 = true →
      ∃ res copy_obj,
        s.reservations.find? (fun r => r.id == rid) = some res
        ∧ s.copies.find? (fun c => c.id == res.copy_id) = some copy_obj
        ∧ res.status = "active" ∧ copy_obj.status = "reserved"
        ∧ s.loans.any (fun l => l.copy_id == copy_obj.id
            && ACTIVE_LOAN_STATUSES.contains l.status) = false)
    ∧ (∀ res copy_obj,
        s.reservations.find? (fun r => r.id == rid) = some res →
        s.copies.find? (fun c => c.id == res.copy_id) = some copy_obj →
        res.status = "active" → copy_obj.status = "reserved" →
        s.loans.any (fun l => l.copy_id == copy_obj.id
            && ACTIVE_LOAN_STATUSES.contains l.status) = false →
        fulfill_reservation librarian_id rid loan_days today now s
          = ((true, "Выдано до " ++ toString (today + loan_days) ++ "."),
             { s with
               loans := s.loans ++
                 [{ id := s.next_loan_id, status := "open",
                    start_date := today, due_date := today + loan_days,
                    return_date := none, copy_id := copy_obj.id,
                    reader_id := res.reader_id, librarian_id := librarian_id }],
               reservations := s.reservations.map fun r =>
                 if r.id == rid then { r with status := "fulfilled" } else r,
               copies := s.copies.map fun c =>
                 if c.id == copy_obj.id then { c with status := "loaned" } else c,
               next_loan_id := s.next_loan_id + 1 })) := by
  have hw : fulfill_reservation librarian_id rid loan_days today now s
      = fulfill_reservation_tx librarian_id rid loan_days today s := by
    unfold fulfill_reservation
    rw [hclean]
  rw [hw]
  refine ⟨?_, ?_, ?_⟩
  · unfold fulfill_reservation_tx
    split
    · intro _
      rfl
    split
    · intro _
      rfl
    split
    · intro _
      rfl
    split
    · intro _
      rfl
    split
    · intro _
      rfl
    · intro hfail
      simp at hfail
  · intro hsucc
    unfold fulfill_reservation_tx at hsucc
    split at hsucc
    · simp at hsucc
    next res hfr =>
      split at hsucc
      · simp at hsucc
      next copy_obj hfc =>
        split at hsucc
        · simp at hsucc
        next hres0 =>
          split at hsucc
          · simp at hsucc
          next hcres0 =>
            split at hsucc
            · simp at hsucc
            next hany =>
              refine ⟨res, copy_obj, hfr, hfc, by simpa using hres0,
                by simpa using hcres0, ?_⟩
              rw [← Bool.not_eq_true]
              exact hany
  · intro res copy_obj hfr hfc hact hcres hany
    unfold fulfill_reservation_tx
    rw [hfr]
    dsimp only
    rw [hfc]
    dsimp only
    rw [if_neg (by simp [hact]), if_neg (by simp [hcres]),
      if_neg (by rw [hany]; simp)]

/-- Witness for C5: fulfilling a missing reservation id on the plain
store fails without touching it, and on the reserved store the success
conditions are all met. -/
theorem C5_witness :
    (fulfill_reservation 3 9 14 0 0 wdb).2 = wdb
    ∧ ∃ res copy_obj,
        wdb_expiry.reservations.find? (fun r => r.id == 1) = some res
        ∧ wdb_expiry.copies.find? (fun c => c.id == res.copy_id) = some copy_obj
        ∧ res.status = "active" ∧ copy_obj.status = "reserved"
        ∧ wdb_expiry.loans.any (fun l => l.copy_id == copy_obj.id
            && ACTIVE_LOAN_STATUSES.contains l.status) = false :=
  ⟨(C5_fulfill_reservation 3 9 14 0 0 wdb (by decide)).1 (by decide),
   (C5_fulfill_reservation 3 1 14 1 0 wdb_expiry (by decide)).2.1 (by decide)⟩

/-- C6: `issue_loan` fails with no state change when the copy code
resolves to no row, when the copy is not available, or when the reader
login resolves to no row; on success it appends a loan with status open,
start = today and due = today + 14 (`DEFAULT_LOAN_DAYS`), sets the copy
to loaned, and a second `issue_loan` on the same code before return fails
with the not-available message and changes nothing. -/
theorem C6_issue_loan (code login : String) (librarian_id today : Nat) (s : DB)
    (hcode : ¬ (py_strip code).isEmpty = true) (hlogin : ¬ (py_strip login).isEmpty = true)
    (hnd : (s.copies.map (·.id)).Nodup) :
    (s.copies.find? (fun c => c.inventory_code == py_strip code) = none →
      issue_loan code login librarian_id today s
        = ((false, "Экземпляр " ++ py_strip code ++ " не найден."), s))
    ∧ (∀ copy, s.copies.find? (fun c => c.inventory_code == py_strip code) = some copy →
        copy.status ≠ "available" →
        issue_loan code login librarian_id today s
          = ((false, "Экземпляр сейчас не доступен (status=" ++ copy.status ++ ")."), s))
    ∧ (∀ copy, s.copies.find? (fun c => c.inventory_code == py_strip code) = some copy →
        copy.status = "available" →
        s.users.find? (fun u => u.login == py_strip login) = none →
        issue_loan code login librarian_id today s
          = ((false, "Читатель " ++ py_strip login ++ " не найден."), s))
    ∧ (∀ copy reader,
        s.copies.find? (fun c => c.inventory_code == py_strip code) = some copy →
        copy.status = "available" →
        s.users.find? (fun u => u.login == py_strip login) = some reader →
        issue_loan code login librarian_id today s
          = ((true, "Выдача оформлена. Loan ID=" ++ toString s.next_loan_id
                ++ ", до " ++ toString (today + DEFAULT_LOAN_DAYS) ++ "."),
             { s with
               loans := s.loans ++
                 [{ id := s.next_loan_id, status := "open",
                    start_date := today, due_date := today + DEFAULT_LOAN_DAYS,
                    return_date := none, copy_id := copy.id, reader_id := reader.id,
                    librarian_id := librarian_id }],
               copies := s.copies.map fun c =>
                 if c.id == copy.id then { c with status := "loaned" } else c,
               next_loan_id := s.next_loan_id + 1 })
          ∧ (∀ librarian2 today2,
              issue_loan code login librarian2 today2
                  (issue_loan code login librarian_id today s).2
                = ((false, "Экземпляр сейчас не доступен (status="
                      ++ "loaned" ++ ")."),
                   (issue_loan code login librarian_id today s).2))) := by
  have hvalid : ¬((py_strip code).isEmpty || (py_strip login).isEmpty) = true := by
    rw [Bool.or_eq_true]
    rintro (h | h)
    · exact hcode h
    · exact hlogin h
  refine ⟨?_, ?_, ?_, ?_⟩
  · intro hnone
    unfold issue_loan
    dsimp only
    rw [if_neg hvalid, hnone]
  · intro copy hfcopy hnav
    unfold issue_loan
    dsimp only
    rw [if_neg hvalid, hfcopy]
    dsimp only
    rw [if_pos (by simpa using hnav)]
  · intro copy hfcopy hav hnouser
    unfold issue_loan
    dsimp only
    rw [if_neg hvalid, hfcopy]
    dsimp only
    rw [if_neg (by simp [hav]), hnouser]
  · intro copy reader hfcopy hav hfreader
    have hself : s.copies.find? (fun c => c.id == copy.id) = some copy :=
      find?_key_of_nodup (fun c : CopyRec => c.id) hnd
        (List.mem_of_find?_eq_some hfcopy)
    have hsucc : issue_loan code login librarian_id today s
        = ((true, "Выдача оформлена. Loan ID=" ++ toString s.next_loan_id
              ++ ", до " ++ toString (today + DEFAULT_LOAN_DAYS) ++ "."),
           { s with
             loans := s.loans ++
               [{ id := s.next_loan_id, status := "open",
                  start_date := today, due_date := today + DEFAULT_LOAN_DAYS,
                  return_date := none, copy_id := copy.id, reader_id := reader.id,
                  librarian_id := librarian_id }],
             copies := s.copies.map fun c =>
               if c.id == copy.id then { c with status := "loaned" } else c,
             next_loan_id := s.next_loan_id + 1 }) := by
      unfold issue_loan
      dsimp only
      rw [if_neg hvalid, hfcopy]
      dsimp only
      rw [if_neg (by simp [hav]), hfreader]
      dsimp only
      rw [hself]
      dsimp only
      rw [if_neg (by simp [hav])]
    refine ⟨hsucc, ?_⟩
    intro librarian2 today2
    rw [hsucc]
    have hfind2 : ((s.copies.map fun c => if c.id == copy.id
        then { c with status := "loaned" } else c).find?
        (fun c => c.inventory_code == py_strip code))
        = some { copy with status := "loaned" } := by
      rw [find?_map_pres (fun c => by split <;> rfl), hfcopy, Option.map_some',
        if_pos (by simp)]
    unfold issue_loan
    dsimp only
    rw [if_neg hvalid]
    rw [hfind2]
    dsimp only
    rw [if_pos (by simp)]

/-- Witness for C6: issuing the available copy by its code succeeds, and
re-issuing the same code immediately afterwards fails not-available. -/
theorem C6_witness :
    issue_loan "INV-0001" "kap213" 3 0 (issue_loan "INV-0001" "kap213" 3 0 wdb).2
      = ((false, "Экземпляр сейчас не доступен (status=" ++ "loaned" ++ ")."),
         (issue_loan "INV-0001" "kap213" 3 0 wdb).2) :=
  ((C6_issue_loan "INV-0001" "kap213" 3 0 wdb (by decide) (by decide)
      (by decide)).2.2.2
    { id := 1, inventory_code := "INV-0001", status := "available",
      book_id := 1, location_id := some 1 }
    { id := 2, login := "kap213" }
    (by decide) (by decide) (by decide)).2 3 0

/-- C7: `extend_reservation` (on a store with no stale reservations
pending and distinct reservation ids) succeeds at most once per
reservation: it succeeds only if the reservation exists, is active,
belongs to the caller and carries a cleared extended-once flag; on
success it adds exactly one day to the pickup date, recomputes the expiry
as the end of the new pickup day, sets the flag, leaves all copies
untouched, and an immediate second call at the same clock fails with the
already-extended message and changes nothing; every failure leaves the
store unchanged. -/
theorem C7_extend_reservation (reader_id rid now : Nat) (s : DB)
    (hclean : (expire_old_reservations now s).2 = s)
    (hnd : (s.reservations.map (·.id)).Nodup) :
    ((extend_reservation reader_id rid now s).1.1 = true →
      ∃ res, s.reservations.find? (fun r => r.id == rid) = some res
        ∧ res.reader_id = reader_id ∧ res.status = "active"
        ∧ res.extended_once = false)
    ∧ (∀ res, s.reservations.find? (fun r => r.id == rid) = some res →
        res.reader_id = reader_id → res.status = "active" →
        res.extended_once = false →
        extend_reservation reader_id rid now s
          = ((true, "Продлено до " ++ toString (res.pickup_date + 1) ++ "."),
             { s with reservations := s.reservations.map fun r =>
                 if r.id == rid then
                   { r with pickup_date := res.pickup_date + 1,
                            expires_at := _end_of_day (res.pickup_date + 1),
                            extended_once := true }
                 else r })
        ∧ (extend_reservation reader_id rid now s).2.copies = s.copies
        ∧ (now ≤ _end_of_day (res.pickup_date + 1) →
            extend_reservation reader_id rid now
                (extend_reservation reader_id rid now s).2
              = ((false, "Продлить можно только один раз."),
                 (extend_reservation reader_id rid now s).2)))
    ∧ ((extend_reservation reader_id rid now s).1.1 = false →
        (extend_reservation reader_id rid now s).2 = s) := by
  have hw : extend_reservation reader_id rid now s
      = extend_reservation_tx reader_id rid s := by
    unfold extend_reservation
    rw [hclean]
  refine ⟨?_, ?_, ?_⟩
  · rw [hw]
    unfold extend_reservation_tx
    split
    · intro h
      simp at h
    split
    · intro h
      simp at h
    split
    · intro h
      simp at h
    split
    · intro h
      simp at h
    next res hfr hown hst hext =>
      intro _
      refine ⟨res, hfr, ?_, by simpa using hst, by simpa using hext⟩
      have := hown
      simpa using this
  · intro res hfr hown hact hext
    have hsucc : extend_reservation reader_id rid now s
        = ((true, "Продлено до " ++ toString (res.pickup_date + 1) ++ "."),
           { s with reservations := s.reservations.map fun r =>
               if r.id == rid then
                 { r with pickup_date := res.pickup_date + 1,
                          expires_at := _end_of_day (res.pickup_date + 1),
                          extended_once := true }
               else r }) := by
      rw [hw]
      unfold extend_reservation_tx
      rw [hfr]
      dsimp only
      rw [if_neg (by simp [hown]), if_neg (by simp [hact]),
        if_neg (by rw [hext]; simp)]
    refine ⟨hsucc, by rw [hsucc], ?_⟩
    intro hnow
    rw [hsucc]
    have hmemr : res ∈ s.reservations := List.mem_of_find?_eq_some hfr
    have hpfr := List.find?_some hfr
    have hridr : res.id = rid := beq_iff_eq.mp hpfr
    have hnoexp : ∀ r ∈ s.reservations, res_expirable now r = false :=
      no_expirable_of_clean hclean
    have hclean2 : (expire_old_reservations now
        { s with reservations := s.reservations.map fun r =>
            if r.id == rid then
              { r with pickup_date := res.pickup_date + 1,
                       expires_at := _end_of_day (res.pickup_date + 1),
                       extended_once := true }
            else r }).2
        = { s with reservations := s.reservations.map fun r =>
              if r.id == rid then
                { r with pickup_date := res.pickup_date + 1,
                         expires_at := _end_of_day (res.pickup_date + 1),
                         extended_once := true }
              else r } := by
      rw [clean_of_no_expirable]
      intro y hy
      obtain ⟨r, hr, hry⟩ := List.mem_map.mp hy
      by_cases hid : (r.id == rid) = true
      · have hrr : r = res :=
          List.inj_on_of_nodup_map hnd hr hmemr
            ((beq_iff_eq.mp hid).trans hridr.symm)
        rw [if_pos hid] at hry
        rw [← hry, hrr]
        unfold res_expirable
        rw [Bool.and_eq_false_iff]
        right
        simp only [decide_eq_false_iff_not, not_lt]
        exact hnow
      · rw [if_neg hid] at hry
        rw [← hry]
        exact hnoexp r hr
    unfold extend_reservation
    rw [hclean2]
    unfold extend_reservation_tx
    have hfind2 : ((s.reservations.map fun r =>
        if r.id == rid then
          { r with pickup_date := res.pickup_date + 1,
                   expires_at := _end_of_day (res.pickup_date + 1),
                   extended_once := true }
        else r).find? (fun r => r.id == rid))
        = some { res with pickup_date := res.pickup_date + 1,
                          expires_at := _end_of_day (res.pickup_date + 1),
                          extended_once := true } := by
      rw [find?_map_pres (fun r => by split <;> rfl), hfr, Option.map_some',
        if_pos (by simp [hridr])]
    rw [hfind2]
    dsimp only
    rw [if_neg (by simp [hown]), if_neg (by simp [hact]), if_pos rfl]
  · rw [hw]
    unfold extend_reservation_tx
    split
    · intro _
      rfl
    split
    · intro _
      rfl
    split
    · intro _
      rfl
    split
    · intro _
      rfl
    · intro h
      simp at h

/-- Witness for C7: extending the active reservation succeeds once and the
immediate second call fails with the already-extended conflict. -/
theorem C7_witness :
    extend_reservation 2 1 0 (extend_reservation 2 1 0 wdb_expiry).2
      = ((false, "Продлить можно только один раз."),
         (extend_reservation 2 1 0 wdb_expiry).2) :=
  ((C7_extend_reservation 2 1 0 wdb_expiry (by decide) (by decide)).2.1
    { id := 1, status := "active", pickup_date := 1,
      expires_at := _end_of_day 1, extended_once := false,
      reader_id := 2, copy_id := 1, branch_id := 1 }
    (by decide) (by decide) (by decide) (by decide)).2.2 (by decide)

/-! Dictionary lemmas for the rights merge. -/

theorem dget_dset_self (d : Rights) (k : String) (v : RVal) :
    dget (dset d k v) k = some v := by
  unfold dget dset
  rw [List.find?_cons_of_pos _ (by simp)]
  rfl

theorem dget_dset_ne (d : Rights) (k k2 : String) (v : RVal) (hne : k ≠ k2) :
    dget (dset d k v) k2 = dget d k2 := by
  unfold dget dset
  rw [List.find?_cons_of_neg _ (by simpa using hne)]

theorem dsetdefault_of_isSome {d : Rights} {k : String} (v : RVal)
    (h : (dget d k).isSome = true) : dsetdefault d k v = d := by
  unfold dsetdefault
  rw [if_pos]
  unfold dget at h
  rwa [Option.isSome_map'] at h

theorem dget_dsetdefault_ne (d : Rights) (k k2 : String) (v : RVal) (hne : k ≠ k2) :
    dget (dsetdefault d k v) k2 = dget d k2 := by
  unfold dsetdefault
  split
  · rfl
  · unfold dget
    rw [List.find?_cons_of_neg _ (by simpa using hne)]

theorem merge_one_dget_ne (m : Rights) (e : String × RVal) (k : String)
    (hne : e.1 ≠ k) : dget (merge_one m e) k = dget m k := by
  unfold merge_one
  by_cases hall : (e.1 == "all") = true
  · rw [if_pos hall]
  · rw [if_neg hall]
    cases e.2 with
    | b x =>
      cases x
      · exact dget_dsetdefault_ne m e.1 k _ hne
      · exact dget_dset_ne m e.1 k _ hne
    | other t => exact dget_dset_ne m e.1 k _ hne

theorem merge_one_dget_true (m : Rights) (e : String × RVal) (k : String)
    (hk : k ≠ "all") (hek : e.1 = k) (hv : e.2 = RVal.b true) :
    dget (merge_one m e) k = some (RVal.b true) := by
  unfold merge_one
  rw [if_neg (by simp [hek, hk]), hv]
  rw [hek]
  exact dget_dset_self m k (RVal.b true)

theorem merge_one_dget_pres (m : Rights) (e : String × RVal) (k : String)
    (hk : k ≠ "all") (hbool : e.1 = k → e.2 = RVal.b true ∨ e.2 = RVal.b false)
    (hm : dget m k = some (RVal.b true)) :
    dget (merge_one m e) k = some (RVal.b true) := by
  by_cases hek : e.1 = k
  · rcases hbool hek with hv | hv
    · exact merge_one_dget_true m e k hk hek hv
    · unfold merge_one
      rw [if_neg (by simp [hek, hk]), hv, hek,
        dsetdefault_of_isSome _ (by rw [hm]; rfl)]
      exact hm
  · rw [merge_one_dget_ne m e k hek]
    exact hm

/-- Folding one role's items preserves or establishes an explicit `True`
under `k`. -/
theorem fold_merge_one_true {k : String} (hk : k ≠ "all") :
    ∀ (d : List (String × RVal)) (m : Rights),
      (∀ e ∈ d, e.1 = k → e.2 = RVal.b true ∨ e.2 = RVal.b false) →
      (dget m k = some (RVal.b true) ∨ ∃ e ∈ d, e.1 = k ∧ e.2 = RVal.b true) →
      dget (d.foldl merge_one m) k = some (RVal.b true) := by
  intro d
  induction d with
  | nil =>
    intro m _ hex
    rcases hex with h | ⟨e, he, _⟩
    · exact h
    · cases he
  | cons e d ih =>
    intro m hbool hex
    rw [List.foldl_cons]
    apply ih (merge_one m e)
      (fun e2 he2 h2 => hbool e2 (List.mem_cons_of_mem _ he2) h2)
    rcases hex with hm | ⟨e2, he2, hk2, hv2⟩
    · exact Or.inl (merge_one_dget_pres m e k hk
        (hbool e (List.mem_cons_self _ _)) hm)
    · rcases List.mem_cons.mp he2 with rfl | he2'
      · exact Or.inl (merge_one_dget_true m e2 k hk hk2 hv2)
      · exact Or.inr ⟨e2, he2', hk2, hv2⟩

/-- Folding a role's items never binds the key `all`. -/
theorem fold_merge_one_all :
    ∀ (d : List (String × RVal)) (m : Rights),
      dget (d.foldl merge_one m) "all" = dget m "all" := by
  intro d
  induction d with
  | nil => intro m; rfl
  | cons e d ih =>
    intro m
    rw [List.foldl_cons, ih]
    unfold merge_one
    by_cases hall : (e.1 == "all") = true
    · rw [if_pos hall]
    · have hne : e.1 ≠ "all" := by simpa using hall
      rw [if_neg hall]
      cases e.2 with
      | b x =>
        cases x
        · exact dget_dsetdefault_ne m e.1 _ _ hne
        · exact dget_dset_ne m e.1 _ _ hne
      | other t => exact dget_dset_ne m e.1 _ _ hne

/-- Any role granting `all = True` short-circuits the merge. -/
theorem merge_rights_all (ds : List Rights) :
    ∀ m, (∃ d ∈ ds, dget d "all" = some (RVal.b true)) →
      merge_rights ds m = [("all", RVal.b true)] := by
  induction ds with
  | nil =>
    intro m hex
    rcases hex with ⟨d, hd, _⟩
    cases hd
  | cons d rest ih =>
    intro m hex
    unfold merge_rights
    by_cases hall : dget d "all" = some (RVal.b true)
    · rw [if_pos hall]
    · rw [if_neg hall]
      apply ih
      rcases hex with ⟨d2, hd2, hall2⟩
      rcases List.mem_cons.mp hd2 with rfl | h2
      · exact absurd hall2 hall
      · exact ⟨d2, h2, hall2⟩

/-- Without an `all = True` role, an explicit `True` under `k` in any role
survives the whole merge. -/
theorem merge_rights_true {k : String} (hk : k ≠ "all") :
    ∀ (ds : List Rights) (m : Rights),
      (∀ d ∈ ds, dget d "all" ≠ some (RVal.b true)) →
      (∀ d ∈ ds, ∀ e ∈ d, e.1 = k → e.2 = RVal.b true ∨ e.2 = RVal.b false) →
      (dget m k = some (RVal.b true) ∨ ∃ d ∈ ds, ∃ e ∈ d, e.1 = k ∧ e.2 = RVal.b true) →
      dget (merge_rights ds m) k = some (RVal.b true) := by
  intro ds
  induction ds with
  | nil =>
    intro m _ _ hex
    rcases hex with h | ⟨d, hd, _⟩
    · exact h
    · cases hd
  | cons d rest ih =>
    intro m hnall hbool hex
    unfold merge_rights
    rw [if_neg (hnall d (List.mem_cons_self _ _))]
    apply ih
    · exact fun d2 hd2 => hnall d2 (List.mem_cons_of_mem _ hd2)
    · exact fun d2 hd2 => hbool d2 (List.mem_cons_of_mem _ hd2)
    · rcases hex with hm | ⟨d2, hd2, e2, he2, hk2, hv2⟩
      · exact Or.inl (fold_merge_one_true hk d m
          (hbool d (List.mem_cons_self _ _)) (Or.inl hm))
      · rcases List.mem_cons.mp hd2 with rfl | hd2'
        · exact Or.inl (fold_merge_one_true hk d2 m
            (hbool d2 (List.mem_cons_self _ _)) (Or.inr ⟨e2, he2, hk2, hv2⟩))
        · exact Or.inr ⟨d2, hd2', e2, he2, hk2, hv2⟩

/-- Without an `all = True` role the merged map never binds `all`. -/
theorem merge_rights_all_none :
    ∀ (ds : List Rights) (m : Rights),
      (∀ d ∈ ds, dget d "all" ≠ some (RVal.b true)) →
      dget m "all" = none →
      dget (merge_rights ds m) "all" = none := by
  intro ds
  induction ds with
  | nil =>
    intro m _ hm
    exact hm
  | cons d rest ih =>
    intro m hnall hm
    unfold merge_rights
    rw [if_neg (hnall d (List.mem_cons_self _ _))]
    exact ih _ (fun d2 hd2 => hnall d2 (List.mem_cons_of_mem _ hd2))
      ((fold_merge_one_all d m).trans hm)

/-- C8: `Session.can` is true when the merged map holds `all = True`, and
otherwise returns the boolean stored under the key (absent = false); the
merge across roles has union-of-grants semantics: a role with `all = True`
short-circuits to full access, and otherwise an explicit `True` for a key
in any role beats `False` or absence in every other role. -/
theorem C8_session_can_union (sess : Session) (k : String) (ds : List Rights)
    (hk : k ≠ "all")
    (hbool : ∀ d ∈ ds, ∀ e ∈ d, e.1 = k → e.2 = RVal.b true ∨ e.2 = RVal.b false) :
    (dget sess.rights "all" = some (RVal.b true) → sess.can k = true)
    ∧ (dget sess.rights "all" ≠ some (RVal.b true) →
        ∀ x, dget sess.rights k = some (RVal.b x) → sess.can k = x)
    ∧ (dget sess.rights "all" ≠ some (RVal.b true) →
        dget sess.rights k = none → sess.can k = false)
    ∧ ((∃ d ∈ ds, dget d "all" = some (RVal.b true)) →
        get_user_rights ds = [("all", RVal.b true)]
        ∧ ∀ k2, Session.can ⟨0, [], get_user_rights ds⟩ k2 = true)
    ∧ ((∀ d ∈ ds, dget d "all" ≠ some (RVal.b true)) →
        (∃ d ∈ ds, ∃ e ∈ d, e.1 = k ∧ e.2 = RVal.b true) →
        dget (get_user_rights ds) k = some (RVal.b true)
        ∧ Session.can ⟨0, [], get_user_rights ds⟩ k = true) := by
  refine ⟨?_, ?_, ?_, ?_, ?_⟩
  · intro hall
    unfold Session.can
    rw [if_pos hall]
  · intro hnall x hx
    unfold Session.can
    rw [if_neg hnall, hx]
    rfl
  · intro hnall hx
    unfold Session.can
    rw [if_neg hnall, hx]
    rfl
  · intro hex
    have hallg : get_user_rights ds = [("all", RVal.b true)] := merge_rights_all ds [] hex
    refine ⟨hallg, fun k2 => ?_⟩
    unfold Session.can
    dsimp only
    rw [if_pos (by rw [hallg]; rfl)]
  · intro hnall hex
    have htrue : dget (get_user_rights ds) k = some (RVal.b true) :=
      merge_rights_true hk ds [] hnall hbool (Or.inr hex)
    refine ⟨htrue, ?_⟩
    have hnone : dget (get_user_rights ds) "all" = none :=
      merge_rights_all_none ds [] hnall rfl
    unfold Session.can
    dsimp only
    rw [if_neg (by rw [hnone]; simp), htrue]
    rfl

/-- Witness for C8: with a Reader role denying `manage_loans` and a
Librarian role granting it, the merged rights grant the key and `can`
allows it. -/
theorem C8_witness :
    dget (get_user_rights [[("manage_loans", RVal.b false), ("backup", RVal.other true)],
        [("manage_loans", RVal.b true)]]) "manage_loans" = some (RVal.b true)
    ∧ Session.can ⟨0, [], get_user_rights
        [[("manage_loans", RVal.b false), ("backup", RVal.other true)],
         [("manage_loans", RVal.b true)]]⟩ "manage_loans" = true :=
  (C8_session_can_union ⟨0, [], []⟩ "manage_loans"
    [[("manage_loans", RVal.b false), ("backup", RVal.other true)],
     [("manage_loans", RVal.b true)]]
    (by decide) (by decide)).2.2.2.2 (by decide) (by decide)

/-- C9: `update_overdue_statuses` marks overdue exactly the open loans
whose due date is strictly before today, touches nothing else, returns
the affected row count, and is idempotent: an immediate second call
returns 0. -/
theorem C9_update_overdue_statuses (today : Nat) (s : DB) :
    (update_overdue_statuses today s).1 = s.loans.countP (loan_overdue_eligible today)
    ∧ (update_overdue_statuses today s).2.loans
        = s.loans.map (fun l => if loan_overdue_eligible today l
            then { l with status := "overdue" } else l)
    ∧ (update_overdue_statuses today s).2.copies = s.copies
    ∧ (update_overdue_statuses today s).2.reservations = s.reservations
    ∧ (update_overdue_statuses today (update_overdue_statuses today s).2).1 = 0 := by
  refine ⟨rfl, rfl, rfl, rfl, ?_⟩
  show (s.loans.map fun l => if loan_overdue_eligible today l
      then { l with status := "overdue" } else l).countP (loan_overdue_eligible today) = 0
  refine List.countP_eq_zero.mpr ?_
  intro y hy
  obtain ⟨l, hl, hly⟩ := List.mem_map.mp hy
  by_cases he : loan_overdue_eligible today l = true
  · rw [if_pos he] at hly
    rw [← hly]
    simp [loan_overdue_eligible]
  · rw [if_neg he] at hly
    rw [← hly]
    exact he

/-- C10: a successful `return_loan` of an open/overdue loan sets the
loan's copy to available unconditionally — the copy map carries no status
guard, so even a copy marked lost or damaged while on loan comes back as
available (unlike the guarded resets of the expiry sweep and of
`cancel_reservation`). -/
theorem C10_return_loan_resets_copy (loan_id librarian_id today : Nat)
    (s : DB) (loan : LoanRec)
    (hf : s.loans.find? (fun l => l.id == loan_id) = some loan)
    (hst : loan.status = "open" ∨ loan.status = "overdue") :
    (return_loan loan_id librarian_id today s).1.1 = true
    ∧ (return_loan loan_id librarian_id today s).2.copies
        = s.copies.map (fun c => if c.id == loan.copy_id
            then { c with status := "available" } else c)
    ∧ (∀ st, copy_status s loan.copy_id = some st →
        copy_status (return_loan loan_id librarian_id today s).2 loan.copy_id
          = some "available") := by
  have hbool : (loan.status == "open" || loan.status == "overdue") = true := by
    rcases hst with h | h <;> simp [h]
  have hneg : ¬(!(loan.status == "open" || loan.status == "overdue")) = true := by
    rw [hbool]
    simp
  unfold return_loan
  rw [hf]
  dsimp only
  rw [if_neg hneg]
  rw [if_neg hneg]
  refine ⟨rfl, rfl, ?_⟩
  intro st hstat
  obtain ⟨c0, hfindc, hstc⟩ := Option.map_eq_some'.mp hstat
  rw [copy_status_update rfl, hfindc, Option.map_some',
    if_pos (List.find?_some hfindc)]

/-- Witness for C10: returning the open loan on a copy marked `lost`
resets that copy to `available`. -/
theorem C10_witness :
    copy_status wdb_lost 5 = some "lost"
      ∧ copy_status (return_loan 1 3 20 wdb_lost).2 5 = some "available" :=
  ⟨by decide,
   (C10_return_loan_resets_copy 1 3 20 wdb_lost
      { id := 1, status := "open", start_date := 0, due_date := 14,
        return_date := none, copy_id := 5, reader_id := 2, librarian_id := 3 }
      (by decide) (Or.inl rfl)).2.2 "lost" (by decide)⟩

end LibraryApp
